import Mathlib

set_option maxRecDepth 100000

/-!
Verification development for the karl extraction/fingerprinting pipeline
(pkg/model, pkg/service). Go library calls (strings, strconv, net/url,
crypto/md5, the MPD/M3U8 parsers, HTTP) are modeled by executable Lean
functions or by explicit oracle parameters; the repository's own functions
are translated definition by definition.
-/

namespace Karl

/-! ### Models of Go standard-library string primitives -/

/-- Model of strings.ToLower (the identity strings in this code base are ASCII). -/
def stringsToLower (s : String) : String := ⟨s.toList.map Char.toLower⟩

/-- Substring occurrence test on character lists. -/
def containsSeg (pat : List Char) : List Char → Bool
  | [] => pat.isEmpty
  | c :: rest => pat.isPrefixOf (c :: rest) || containsSeg pat rest

/-- Model of strings.Contains. -/
def stringsContains (s pat : String) : Bool := containsSeg pat.toList s.toList

/-- Replace the first occurrence of pat by rep in a character list. -/
def replaceSeg (pat rep : List Char) : List Char → List Char
  | [] => if pat.isEmpty then rep else []
  | c :: rest =>
    if pat.isPrefixOf (c :: rest) then rep ++ List.drop pat.length (c :: rest)
    else c :: replaceSeg pat rep rest

/-- Model of strings.Replace(s, pat, rep, 1). -/
def stringsReplace1 (s pat rep : String) : String := ⟨replaceSeg pat.toList rep.toList s.toList⟩

/-- Split at the first occurrence of sep, returning the pieces around it. -/
def cutSeg (sep : List Char) : List Char → Option (List Char × List Char)
  | [] => if sep.isEmpty then some ([], []) else none
  | c :: rest =>
    if sep.isPrefixOf (c :: rest) then some ([], List.drop sep.length (c :: rest))
    else
      match cutSeg sep rest with
      | some (a, b) => some (c :: a, b)
      | none => none

/-- Model of strings.Cut. -/
def stringsCut (s sep : String) : String × String × Bool :=
  match cutSeg sep.toList s.toList with
  | some (a, b) => (⟨a⟩, ⟨b⟩, true)
  | none => (s, "", false)

/-- Model of strings.HasPrefix, written over the character lists so that it
evaluates inside the kernel. -/
def stringsHasPrefix (s pre : String) : Bool := pre.toList.isPrefixOf s.toList

/-- Model of strconv.ParseUint(s, 10, 32): plain decimal digits, 32-bit bound. -/
def parseUint32 (s : String) : Option Nat :=
  let cs := s.toList
  if cs.isEmpty || !cs.all (·.isDigit) then none
  else
    let n := cs.foldl (fun a c => a * 10 + (c.toNat - 48)) 0
    if n ≤ 2 ^ 32 - 1 then some n else none

/-- Truncating conversion from a Go int64 value to uint32 (Go uint32(l)). -/
def intToUInt32 (l : Int) : Nat := (l % (2 ^ 32 : Int)).toNat

/-! ### Model of net/url parsing and RFC 3986 reference resolution -/

/-- Scheme recognition: ALPHA followed by ALPHA / DIGIT / plus / minus / dot,
terminated by a colon. Returns the scheme (lowercased, as url.Parse does) and
the remainder. -/
def schemeSplitAux (acc : List Char) : List Char → Option (List Char × List Char)
  | [] => none
  | c :: rest =>
    if c = ':' then (if acc.isEmpty then none else some (acc.reverse, rest))
    else if c.isAlpha then schemeSplitAux (c :: acc) rest
    else if (c.isDigit || c = '+' || c = '-' || c = '.') && !acc.isEmpty then
      schemeSplitAux (c :: acc) rest
    else none

/-- Split a URL string into scheme and remainder when it is absolute. -/
def schemeSplit (s : String) : Option (String × String) :=
  match schemeSplitAux [] s.toList with
  | some (sc, rest) => some (⟨sc.map Char.toLower⟩, ⟨rest⟩)
  | none => none

/-- Model of the reference-URL test in the source: url.ParseRequestURI succeeds
and the scheme is http or https. -/
def isHTTPURL (s : String) : Bool :=
  match schemeSplit s with
  | some (sc, _) => sc == "http" || sc == "https"
  | none => false

/-- Splitting a character list at a separator character (String.splitOn for a
one-character separator, written structurally so that it evaluates inside the
kernel). -/
def splitOnCharList (c : Char) : List Char → List (List Char)
  | [] => [[]]
  | x :: rest =>
    match splitOnCharList c rest with
    | [] => if x = c then [[], []] else [[x]]
    | h :: t => if x = c then [] :: h :: t else (x :: h) :: t

/-- String.splitOn with a one-character separator. -/
def splitOnChar (c : Char) (s : String) : List String :=
  (splitOnCharList c s.toList).map (fun l => (⟨l⟩ : String))

/-- String.intercalate, written structurally. -/
def joinSep (sep : String) : List String → String
  | [] => ""
  | [x] => x
  | x :: y :: rest => x ++ sep ++ joinSep sep (y :: rest)

/-- Remove dot segments from a slash-separated path (RFC 3986 §5.2.4, as
performed by net/url resolvePath). -/
def normPath (p : String) : String :=
  let segs := splitOnChar '/' p
  let kept := segs.foldl
    (fun (acc : List String) seg =>
      if seg = "." then acc
      else if seg = ".." then (if acc.length ≤ 1 then acc else acc.dropLast)
      else acc ++ [seg]) []
  let last := segs.getLastD ""
  let kept := if last = "." || last = ".." then kept ++ [""] else kept
  joinSep "/" kept

/-- The directory part of a path: everything up to and including the last
slash, empty when the path has no slash. -/
def dirOf (p : String) : String :=
  let parts := splitOnChar '/' p
  if parts.length ≤ 1 then "" else joinSep "/" parts.dropLast ++ "/"

/-- Model of net/url reference resolution (URL.ResolveReference, RFC 3986 §5):
an absolute reference wins unchanged; a network-path reference keeps the base
scheme; an absolute-path reference keeps scheme and authority; a relative
reference is merged against the base directory with dot segments removed.
Query and fragment parts are carried inside the path component of this model,
and url.Parse is modeled as total (it fails only on control characters or
malformed escapes, which this development never produces). -/
def urlResolve (base ref : String) : String :=
  match schemeSplit ref with
  | some _ => ref
  | none =>
    if ref = "" then base
    else
      let p := match schemeSplit base with
        | some (sc, r) => (sc ++ ":", r)
        | none => ("", base)
      let bscheme := p.1
      let brest := p.2
      let q :=
        if stringsHasPrefix brest "//" then
          let after : String := ⟨brest.toList.drop 2⟩
          match cutSeg ['/'] after.toList with
          | some (a, pth) => ("//" ++ (⟨a⟩ : String), "/" ++ (⟨pth⟩ : String))
          | none => ("//" ++ after, "")
        else (("" : String), brest)
      let bauth := q.1
      let bpath := q.2
      if stringsHasPrefix ref "//" then bscheme ++ ref
      else if stringsHasPrefix ref "/" then bscheme ++ bauth ++ normPath ref
      else
        let dir := if bauth ≠ "" && dirOf bpath = "" then "/" else dirOf bpath
        bscheme ++ bauth ++ normPath (dir ++ ref)

/-- Model of resolveReference from variantextractor.go. In the source a parse
failure of either argument returns baseURL unchanged; the library model above
is total, so only the resolution path remains. -/
def resolveReference (baseURL u : String) : String := urlResolve baseURL u

/-! ### MD5 (RFC 1321), backing computeID -/

/-- The 64 sine-derived constants of MD5. -/
def md5K : List Nat :=
  [0xd76aa478, 0xe8c7b756, 0x242070db, 0xc1bdceee,
   0xf57c0faf, 0x4787c62a, 0xa8304613, 0xfd469501,
   0x698098d8, 0x8b44f7af, 0xffff5bb1, 0x895cd7be,
   0x6b901122, 0xfd987193, 0xa679438e, 0x49b40821,
   0xf61e2562, 0xc040b340, 0x265e5a51, 0xe9b6c7aa,
   0xd62f105d, 0x02441453, 0xd8a1e681, 0xe7d3fbc8,
   0x21e1cde6, 0xc33707d6, 0xf4d50d87, 0x455a14ed,
   0xa9e3e905, 0xfcefa3f8, 0x676f02d9, 0x8d2a4c8a,
   0xfffa3942, 0x8771f681, 0x6d9d6122, 0xfde5380c,
   0xa4beea44, 0x4bdecfa9, 0xf6bb4b60, 0xbebfbc70,
   0x289b7ec6, 0xeaa127fa, 0xd4ef3085, 0x04881d05,
   0xd9d4d039, 0xe6db99e5, 0x1fa27cf8, 0xc4ac5665,
   0xf4292244, 0x432aff97, 0xab9423a7, 0xfc93a039,
   0x655b59c3, 0x8f0ccc92, 0xffeff47d, 0x85845dd1,
   0x6fa87e4f, 0xfe2ce6e0, 0xa3014314, 0x4e0811a1,
   0xf7537e82, 0xbd3af235, 0x2ad7d2bb, 0xeb86d391]

/-- The per-round left-rotation amounts of MD5. -/
def md5S : List Nat :=
  [7, 12, 17, 22, 7, 12, 17, 22, 7, 12, 17, 22, 7, 12, 17, 22,
   5, 9, 14, 20, 5, 9, 14, 20, 5, 9, 14, 20, 5, 9, 14, 20,
   4, 11, 16, 23, 4, 11, 16, 23, 4, 11, 16, 23, 4, 11, 16, 23,
   6, 10, 15, 21, 6, 10, 15, 21, 6, 10, 15, 21, 6, 10, 15, 21]

/-- Rotate a 32-bit word left by s bits. -/
def rotl32 (x s : Nat) : Nat := ((x <<< s) % 2 ^ 32) ||| (x >>> (32 - s))

/-- Bitwise complement on 32-bit words. -/
def not32 (x : Nat) : Nat := 2 ^ 32 - 1 - x % 2 ^ 32

/-- The round function of MD5 for round index i. -/
def md5F (i b c d : Nat) : Nat :=
  if i < 16 then (b &&& c) ||| (not32 b &&& d)
  else if i < 32 then (d &&& b) ||| (not32 d &&& c)
  else if i < 48 then b ^^^ c ^^^ d
  else c ^^^ (b ||| not32 d)

/-- The message-word schedule of MD5. -/
def md5G (i : Nat) : Nat :=
  if i < 16 then i
  else if i < 32 then (5 * i + 1) % 16
  else if i < 48 then (3 * i + 5) % 16
  else (7 * i) % 16

/-- Little-endian 32-bit word g of a 64-byte block. -/
def md5Word (block : List Nat) (g : Nat) : Nat :=
  block.getD (4 * g) 0 + 256 * block.getD (4 * g + 1) 0 +
    65536 * block.getD (4 * g + 2) 0 + 16777216 * block.getD (4 * g + 3) 0

/-- One MD5 round on the running state. -/
def md5Round (block : List Nat) (st : Nat × Nat × Nat × Nat) (i : Nat) : Nat × Nat × Nat × Nat :=
  let f := (md5F i st.2.1 st.2.2.1 st.2.2.2 + st.1 + md5K.getD i 0 +
    md5Word block (md5G i)) % 2 ^ 32
  (st.2.2.2, (st.2.1 + rotl32 f (md5S.getD i 0)) % 2 ^ 32, st.2.1, st.2.2.1)

/-- Process one 64-byte block. -/
def md5Block (st : Nat × Nat × Nat × Nat) (block : List Nat) : Nat × Nat × Nat × Nat :=
  let e := (List.range 64).foldl (md5Round block) st
  ((st.1 + e.1) % 2 ^ 32, (st.2.1 + e.2.1) % 2 ^ 32,
   (st.2.2.1 + e.2.2.1) % 2 ^ 32, (st.2.2.2 + e.2.2.2) % 2 ^ 32)

/-- Process a padded byte sequence 64 bytes at a time; the fuel argument is a
structural bound on the number of blocks (the caller passes the byte count,
which always suffices). -/
def md5ChunksF : Nat → Nat × Nat × Nat × Nat → List Nat → Nat × Nat × Nat × Nat
  | 0, st, _ => st
  | _ + 1, st, [] => st
  | fuel + 1, st, b :: rest =>
    md5ChunksF fuel (md5Block st ((b :: rest).take 64)) ((b :: rest).drop 64)

/-- Process a padded byte sequence 64 bytes at a time. -/
def md5Chunks (st : Nat × Nat × Nat × Nat) (bytes : List Nat) : Nat × Nat × Nat × Nat :=
  md5ChunksF bytes.length st bytes

/-- MD5 padding: a 0x80 byte, zeros to 56 mod 64, then the bit length in 8
little-endian bytes. -/
def md5Pad (bytes : List Nat) : List Nat :=
  let len := bytes.length
  let padLen := (64 + 56 - (len + 1) % 64) % 64
  let bitLen := (8 * len) % 2 ^ 64
  bytes ++ [0x80] ++ List.replicate padLen 0 ++
    (List.range 8).map (fun i => bitLen / 2 ^ (8 * i) % 256)

/-- Lower-case hexadecimal digit. -/
def hexDigit (n : Nat) : Char := if n < 10 then Char.ofNat (48 + n) else Char.ofNat (87 + n)

/-- Two lower-case hex characters of a byte. -/
def byteHex (b : Nat) : List Char := [hexDigit (b / 16 % 16), hexDigit (b % 16)]

/-- Model of md5.Sum followed by hex.EncodeToString: the lower-case hex digest
of an ASCII string (the identity strings fed to it in this code base are
ASCII). -/
def md5Hex (s : String) : String :=
  let bytes := s.toList.map Char.toNat
  let e := md5Chunks (0x67452301, 0xefcdab89, 0x98badcfe, 0x10325476) (md5Pad bytes)
  let le := fun (w : Nat) => ((List.range 4).map (fun i => byteHex (w / 2 ^ (8 * i) % 256))).flatten
  ⟨le e.1 ++ le e.2.1 ++ le e.2.2.1 ++ le e.2.2.2⟩

/-- Model of computeID from variantextractor.go: the MD5 hex digest of the
dash-joined identity string mime-codecs-width-height-bandwidth. -/
def computeID (mimeType codecs : String) (width height bandwidth : Nat) : String :=
  md5Hex (mimeType ++ "-" ++ codecs ++ "-" ++ Nat.repr width ++ "-" ++
    Nat.repr height ++ "-" ++ Nat.repr bandwidth)

/-- Sanity check of the MD5 model against the RFC 1321 test vector for "abc". -/
theorem md5Hex_abc : md5Hex "abc" = "900150983cd24fb0d6963f7d28e17f72" := by decide

/-! ### Data model (pkg/model/model.go)

Go machine integers are modeled as Nat (uint32/uint64, with explicit % 2 ^ 32
truncation where the source converts) or Int (int, int64). Go nil pointers are
modeled as Option none. -/

/-- Fingerprint: parallel size/duration arrays plus a timescale. -/
structure Fingerprint where
  SegmentSizes : List Nat := []
  SegmentDurations : List Nat := []
  Timescale : Nat := 0
deriving DecidableEq, Repr

/-- Indexed addressing: one URL plus a SIDX byte range. -/
structure IndexedAddressingInfo where
  URL : String := ""
  IndexRange : String := ""
deriving DecidableEq, Repr

/-- Explicit addressing: template URL, concrete segment URLs, durations and
timescale. -/
structure ExplicitAddressingInfo where
  TemplateURL : String := ""
  URLs : List String := []
  Servers : List String := []
  SegmentDurations : List Nat := []
  Timescale : Nat := 0
deriving DecidableEq, Repr

/-- Variant: the canonical pipeline unit. -/
structure Variant where
  ID : String := ""
  MimeType : String := ""
  Codecs : String := ""
  Width : Nat := 0
  Height : Nat := 0
  Bandwidth : Nat := 0
  AddressingMode : String := ""
  IndexedAddressingInfo : Option IndexedAddressingInfo := none
  ExplicitAddressingInfo : Option ExplicitAddressingInfo := none
  Fingerprint : Option Fingerprint := none
deriving DecidableEq, Repr

/-- Reference: a manifest pointer handed to the variant extractor. -/
structure Reference where
  ID : String := ""
  Format : String := ""
  URL : String := ""
  Servers : List String := []
deriving DecidableEq, Repr

/-! ### Model of the Eyevinn dash-mpd document types

Only the fields the source reads are modeled. Library getters that resolve
inheritance or defaults (GetMimeType, GetCodecs, GetDuration, GetType) are
modeled as the already-resolved field value. BaseURL lists hold Option values
because the Go slices hold pointers that may be nil. -/

/-- One S element of a SegmentTimeline (fields T, D, R of the library type;
D is uint64, T is a nullable uint64, R is a Go int and may be negative). -/
structure SElem where
  t : Option Nat := none
  d : Nat := 0
  r : Int := 0
deriving DecidableEq, Repr

/-- SegmentTimeline: the list of S elements (pointers, hence Option). -/
structure SegmentTimelineType where
  S : List (Option SElem) := []
deriving DecidableEq, Repr

/-- SegmentTemplate: media template, optional timescale and startNumber, and
an optional timeline. -/
structure SegmentTemplateType where
  Media : String := ""
  Timescale : Option Nat := none
  StartNumber : Option Nat := none
  SegmentTimeline : Option SegmentTimelineType := none
deriving DecidableEq, Repr

/-- Model of the library getter SegmentTemplateType.GetTimescale: the
attribute value, defaulting to 1 when absent. -/
def SegmentTemplateType.GetTimescale (st : SegmentTemplateType) : Nat :=
  st.Timescale.getD 1

/-- SegmentBase: only the index range is read. -/
structure SegmentBaseType where
  IndexRange : String := ""
deriving DecidableEq, Repr

/-- Representation: identity fields (the mime type and codecs are the values
returned by the library getters, which resolve inheritance from the enclosing
adaptation set) and the addressing elements. SegmentList is modeled by its
presence only, since the source rejects it. -/
structure RepresentationType where
  MimeType : String := ""
  Codecs : String := ""
  Width : Nat := 0
  Height : Nat := 0
  Bandwidth : Nat := 0
  BaseURLs : List (Option String) := []
  SegmentBase : Option SegmentBaseType := none
  SegmentTemplate : Option SegmentTemplateType := none
  SegmentList : Bool := false
deriving DecidableEq, Repr

/-- Supplemental property descriptor: only Value is read. -/
structure DescriptorType where
  Value : String := ""
deriving DecidableEq, Repr

/-- AdaptationSet: content type, base URLs and representations. -/
structure AdaptationSetType where
  ContentType : String := ""
  BaseURLs : List (Option String) := []
  Representations : List RepresentationType := []
deriving DecidableEq, Repr

/-- Period: the GetDuration result when the attribute parses (an xs:duration,
hence nonnegative, in nanoseconds), supplemental properties (nullable
pointers), base URLs and adaptation sets. -/
structure PeriodType where
  Duration : Option Nat := none
  SupplementalProperties : List (Option DescriptorType) := []
  BaseURLs : List (Option String) := []
  AdaptationSets : List AdaptationSetType := []
deriving DecidableEq, Repr

/-- MPD document: the GetType result, top-level base URLs, periods. -/
structure MPD where
  MPDType : String := "static"
  BaseURL : List (Option String) := []
  Periods : List PeriodType := []
deriving DecidableEq, Repr

/-! ### Models of the gohlslib playlist types -/

/-- A variant entry of a master (multivariant) playlist. Bandwidth is a Go
int. -/
structure MultivariantVariant where
  Bandwidth : Int := 0
  Codecs : List String := []
  Resolution : String := ""
  URI : String := ""
deriving DecidableEq, Repr

/-- A media playlist segment: duration (a time.Duration, nanoseconds,
nonnegative as parsed from the playlist), URI and optional byte-range
length (a nullable uint64). -/
structure MediaSegment where
  Duration : Nat := 0
  URI : String := ""
  ByteRangeLength : Option Nat := none
deriving DecidableEq, Repr

/-- A parsed playlist is a master (multivariant) or a media playlist. -/
inductive Playlist where
  | multivariant (variants : List MultivariantVariant)
  | media (segments : List MediaSegment)
deriving DecidableEq, Repr

/-- A SIDX reference entry: referenced size and subsegment duration
(uint32). -/
structure SidxReference where
  ReferencedSize : Nat := 0
  SubsegmentDuration : Nat := 0
deriving DecidableEq, Repr

/-- A parsed SIDX box: reference list and timescale (uint32). -/
structure Sidx where
  References : List SidxReference := []
  Timescale : Nat := 0
deriving DecidableEq, Repr

/-! ### Variant extractor: DASH path (variantextractor.go) -/

/-- Model of resolveBaseURLTypes: resolve against the first BaseURL entry when
present and non-nil. -/
def resolveBaseURLTypes (baseURL : String) (uTypes : List (Option String)) : String :=
  match uTypes with
  | [] => baseURL
  | none :: _ => baseURL
  | some v :: _ => resolveReference baseURL v

/-- The timeline emission loop of parseMPDExplicitAddressingInfo. Walks the S
elements (skipping nil entries), checking the uint32 bound on D, and emits
URL/duration pairs: one pair per element under $Time$, 1 + R pairs under
$Number$ with the running number advancing per emission. uint32 conversions
are written as % 2 ^ 32. -/
def emitTimeline (templateURL : String) (timePlaceholder : Bool) :
    List (Option SElem) → Nat → Except String (List String × List Nat)
  | [], _ => .ok ([], [])
  | none :: rest, num => emitTimeline templateURL timePlaceholder rest num
  | some s :: rest, num =>
    if s.d > 2 ^ 32 - 1 then .error "segment duration > uint32"
    else if timePlaceholder then
      match s.t with
      | none => .error "missing time in segment timeline"
      | some t =>
        match emitTimeline templateURL timePlaceholder rest num with
        | .error e => .error e
        | .ok (us, ds) =>
          .ok (stringsReplace1 templateURL "$Time$" (Nat.repr t) :: us, s.d % 2 ^ 32 :: ds)
    else if s.r < 0 then .error "unlimited repeat in segment timeline"
    else
      match emitTimeline templateURL timePlaceholder rest (num + (1 + s.r.toNat)) with
      | .error e => .error e
      | .ok (us, ds) =>
        .ok ((List.range (1 + s.r.toNat)).map
              (fun j => stringsReplace1 templateURL "$Number$" (Nat.repr (num + j))) ++ us,
             List.replicate (1 + s.r.toNat) (s.d % 2 ^ 32) ++ ds)

/-- Model of parseMPDExplicitAddressingInfo: requires a SegmentTimeline and a
$Time$ or $Number$ placeholder in the media attribute ($Time$ takes
precedence), then materializes the URL/duration lists. -/
def parseMPDExplicitAddressingInfo (u : String) (st : SegmentTemplateType) :
    Except String ExplicitAddressingInfo :=
  match st.SegmentTimeline with
  | none => .error "missing segment timeline"
  | some tl =>
    let templateURL := resolveReference u st.Media
    let timePlaceholder := stringsContains st.Media "$Time$"
    if !timePlaceholder && !stringsContains st.Media "$Number$" then
      .error ("unknown placeholder in " ++ st.Media)
    else
      match emitTimeline templateURL timePlaceholder tl.S (st.StartNumber.getD 1) with
      | .error e => .error e
      | .ok (us, ds) =>
        .ok { TemplateURL := templateURL, URLs := us, Servers := [],
              SegmentDurations := ds, Timescale := st.GetTimescale }

/-- Model of DefaultVariantExtractor.extractMPDVariant. Randomness
(rand.Intn for the $Server$ pick) is modeled by an oracle rnd indexed by a
running draw counter ctr; the value is reduced modulo the bound as the
library guarantees. Returns the variant and the advanced counter. -/
def extractMPDVariant (rnd : Nat → Nat) (ctr : Nat) (u : String) (servers : List String)
    (r : RepresentationType) : Except String (Variant × Nat) :=
  let v : Variant :=
    { ID := computeID r.MimeType r.Codecs r.Width r.Height r.Bandwidth,
      MimeType := r.MimeType, Codecs := r.Codecs,
      Width := r.Width, Height := r.Height, Bandwidth := r.Bandwidth }
  match r.SegmentBase with
  | some sb =>
    let pick := if servers.length > 0 then
        (stringsReplace1 u "$Server$" (servers.getD (rnd ctr % servers.length) ""), ctr + 1)
      else (u, ctr)
    .ok ({ v with
           AddressingMode := "indexed",
           IndexedAddressingInfo := some { URL := pick.1, IndexRange := sb.IndexRange } },
         pick.2)
  | none =>
    match r.SegmentTemplate with
    | some st =>
      match parseMPDExplicitAddressingInfo u st with
      | .error e => .error ("explicit addressing info: " ++ e)
      | .ok info =>
        .ok ({ v with
               AddressingMode := "explicit",
               ExplicitAddressingInfo := some { info with Servers := servers } }, ctr)
    | none =>
      if r.SegmentList then .error "segment list not implemented"
      else .error "unknown addressing type"

/-! ### variantGroup (multi-period merge state) -/

/-- Association-list lookup with default, modeling Go map read. -/
def assocGetD (k : String) (d : α) : List (String × α) → α
  | [] => d
  | (k1, v) :: rest => if k1 = k then v else assocGetD k d rest

/-- Association-list update-or-insert, modeling Go map write. The Go map
iteration order is unspecified; the model fixes first-insertion order, which
is sound for every property proved here (none depends on entry order). -/
def assocSet (k : String) (f : α → α) (d : α) : List (String × α) → List (String × α)
  | [] => [(k, f d)]
  | (k1, v) :: rest => if k1 = k then (k1, f v) :: rest else (k1, v) :: assocSet k f d rest

/-- The grouping key of a variant, as computed in variantGroup.add. The Go
code dereferences the addressing-info pointer, which extraction always sets
for these modes; a nil pointer (which would panic in Go) is modeled by the
empty key. -/
def variantKey (v : Variant) : String :=
  match v.AddressingMode with
  | "indexed" => (v.IndexedAddressingInfo.map (·.URL)).getD ""
  | "explicit" => (v.ExplicitAddressingInfo.map (·.TemplateURL)).getD ""
  | _ => ""

/-- variantGroup: per-key variant lists, per-key total durations, and the
running maximum total duration. Durations are nonnegative (time.Duration
values obtained from xs:duration attributes), modeled as Nat. -/
structure variantGroup where
  variants : List (String × List Variant) := []
  durations : List (String × Nat) := []
  maxDuration : Nat := 0
deriving DecidableEq, Repr

/-- Model of newVariantGroup. -/
def variantGroup.empty : variantGroup := {}

/-- Model of variantGroup.add: append the variant under its key, extend the
key's total duration, and raise the running maximum. -/
def variantGroup.add (vg : variantGroup) (v : Variant) (d : Nat) : variantGroup :=
  let k := variantKey v
  let newDur := assocGetD k 0 vg.durations + d
  { variants := assocSet k (· ++ [v]) [] vg.variants,
    durations := assocSet k (· + d) 0 vg.durations,
    maxDuration := max vg.maxDuration newDur }

/-- The default explicit info used to model the Go nil-pointer dereference in
variantGroup.merge: a group mixing addressing modes would panic in Go (and so
produce no output at all); the model appends empty lists instead, which only
enlarges the set of modeled outputs. -/
def emptyExplicitInfo : ExplicitAddressingInfo := {}

/-- Folding one group in variantGroup.merge: start from the first variant,
append the URL and duration lists of the remaining members pairwise in order
(explicit addressing only), average the bandwidths (int64 sum, truncated
integer division, uint32 conversion written as % 2 ^ 32), and recompute the
identifier hash when the bandwidth changed. -/
def mergeOne (v0 : Variant) (rest : List Variant) : Variant :=
  let sum := v0.Bandwidth + (rest.map (·.Bandwidth)).sum
  let m :=
    if v0.AddressingMode = "explicit" then
      let info0 := v0.ExplicitAddressingInfo.getD emptyExplicitInfo
      let info1 := { info0 with
        URLs := info0.URLs ++
          (rest.map (fun v => (v.ExplicitAddressingInfo.getD emptyExplicitInfo).URLs)).flatten,
        SegmentDurations := info0.SegmentDurations ++
          (rest.map (fun v =>
            (v.ExplicitAddressingInfo.getD emptyExplicitInfo).SegmentDurations)).flatten }
      { v0 with ExplicitAddressingInfo := some info1 }
    else v0
  let bw := (sum / (1 + rest.length)) % 2 ^ 32
  let m := { m with Bandwidth := bw }
  if bw ≠ v0.Bandwidth then
    { m with ID := computeID m.MimeType m.Codecs m.Width m.Height m.Bandwidth }
  else m

/-- Model of variantGroup.merge: skip groups whose total duration is strictly
below the running maximum, fold each surviving group into one variant. Go map
entries are never empty (add always appends), so the empty-group branch is
unreachable. -/
def variantGroup.merge (vg : variantGroup) : List Variant :=
  vg.variants.filterMap (fun kv =>
    if assocGetD kv.1 0 vg.durations < vg.maxDuration then none
    else
      match kv.2 with
      | [] => none
      | v0 :: rest => some (mergeOne v0 rest))

/-! ### DASH period walk (extractMPDVariants) -/

/-- The representation loop: skip non-video mime types, resolve the
representation base URL, extract the variant and add it to the group under
the period duration. -/
def extractMPDReps (rnd : Nat → Nat) (u : String) (servers : List String) (pd : Nat) :
    List RepresentationType → variantGroup → Nat → Except String (variantGroup × Nat)
  | [], vg, ctr => .ok (vg, ctr)
  | r :: rest, vg, ctr =>
    if r.MimeType != "" && !(stringsHasPrefix r.MimeType "video") then
      extractMPDReps rnd u servers pd rest vg ctr
    else
      let u1 := resolveBaseURLTypes u r.BaseURLs
      match extractMPDVariant rnd ctr u1 servers r with
      | .error e => .error ("extract mpd variant: " ++ e)
      | .ok (v, ctr1) => extractMPDReps rnd u servers pd rest (vg.add v pd) ctr1

/-- The adaptation-set loop: skip non-video content types, resolve the set's
base URL, walk its representations. -/
def extractMPDASets (rnd : Nat → Nat) (u : String) (servers : List String) (pd : Nat) :
    List AdaptationSetType → variantGroup → Nat → Except String (variantGroup × Nat)
  | [], vg, ctr => .ok (vg, ctr)
  | a :: rest, vg, ctr =>
    if a.ContentType != "" && a.ContentType != "video" then
      extractMPDASets rnd u servers pd rest vg ctr
    else
      let u1 := resolveBaseURLTypes u a.BaseURLs
      match extractMPDReps rnd u1 servers pd a.Representations vg ctr with
      | .error e => .error e
      | .ok (vg1, ctr1) => extractMPDASets rnd u servers pd rest vg1 ctr1

/-- The period loop: read the period duration (0 when the attribute is absent
or unparsable), skip ad periods (a supplemental property whose value
lower-cases to "ad"), resolve the period base URL, walk the adaptation
sets. -/
def extractMPDPeriods (rnd : Nat → Nat) (u : String) (servers : List String) :
    List PeriodType → variantGroup → Nat → Except String (variantGroup × Nat)
  | [], vg, ctr => .ok (vg, ctr)
  | p :: rest, vg, ctr =>
    let pd := p.Duration.getD 0
    let ad := p.SupplementalProperties.any (fun prop =>
      match prop with
      | some pr => stringsToLower pr.Value == "ad"
      | none => false)
    if ad then extractMPDPeriods rnd u servers rest vg ctr
    else
      let u1 := resolveBaseURLTypes u p.BaseURLs
      match extractMPDASets rnd u1 servers pd p.AdaptationSets vg ctr with
      | .error e => .error e
      | .ok (vg1, ctr1) => extractMPDPeriods rnd u servers rest vg1 ctr1

/-- Model of DefaultVariantExtractor.extractMPDVariants. Network and file
reads are oracles (fetchMPD wraps fetchMPD over HTTP, readMPD wraps
mpd.ReadFromFile). The random $Server$ pick for the fetch URL consumes draw 0
of rnd; subsequent picks in extractMPDVariant consume the following draws.
The nil check on m.BaseURL entries follows resolveBaseURLTypes; the separate
first-entry read in the file branch dereferences the first pointer, modeled
with a default for the nil case (which would panic in Go). -/
def extractMPDVariants (rnd : Nat → Nat) (fetchMPD readMPD : String → Except String MPD)
    (reference : Reference) : Except String (List Variant) :=
  let isURL := isHTTPURL reference.URL
  let fetched : Except String (MPD × String × Nat) :=
    if isURL then
      let pick := if reference.Servers.length > 0 then
          (stringsReplace1 reference.URL "$Server$"
            (reference.Servers.getD (rnd 0 % reference.Servers.length) ""), 1)
        else (reference.URL, 0)
      match fetchMPD pick.1 with
      | .error e => .error ("fetch mpd: " ++ e)
      | .ok m => .ok (m, pick.1, pick.2)
    else
      match readMPD reference.URL with
      | .error e => .error ("read mpd: " ++ e)
      | .ok m =>
        let u := if reference.Servers.length > 0 then reference.Servers.getD 0 "" else reference.URL
        let u := if u = "" && m.BaseURL.length > 0 then (m.BaseURL.getD 0 none).getD "" else u
        .ok (m, u, 0)
  match fetched with
  | .error e => .error e
  | .ok (m, u, ctr) =>
    if m.MPDType != "static" then .error "mpd is not static"
    else
      let u := resolveBaseURLTypes u m.BaseURL
      match extractMPDPeriods rnd u reference.Servers m.Periods variantGroup.empty ctr with
      | .error e => .error e
      | .ok (vg, _) =>
        let v := vg.merge
        if v.length > 0 then .ok v else .error "no variants found"

/-! ### Variant extractor: HLS path (extractM3U8Variant, extractM3U8Variants) -/

/-- Model of filepath.Ext: the suffix starting at the final dot of the final
slash-separated element, empty when that element has no dot. -/
def filepathExt (p : String) : String :=
  let base := (splitOnChar '/' p).getLastD ""
  let parts := splitOnChar '.' base
  if parts.length ≤ 1 then "" else "." ++ parts.getLastD ""

/-- The per-segment state of the extractM3U8Variant loop: inferred mime type,
the fingerprinted-mode flag, the accumulating embedded fingerprint, and the
accumulating explicit info. -/
structure M3U8SegState where
  mimeType : String := ""
  isIndexed : Bool := false
  fp : Fingerprint := {}
  info : ExplicitAddressingInfo := {}
deriving DecidableEq, Repr

/-- The segment loop of extractM3U8Variant: infer the mime type from the
first recognized extension, convert the duration to milliseconds (uint32
checked), and either accumulate (size, duration) into the embedded
fingerprint — switching the variant to fingerprinted mode the first time a
segment carries a byte-range length — or accumulate (resolved URL, duration)
into the explicit info. -/
def m3u8SegLoop (u : String) : List MediaSegment → M3U8SegState → Except String M3U8SegState
  | [], st => .ok st
  | seg :: rest, st =>
    let mt := if st.mimeType = "" then
        match filepathExt seg.URI with
        | ".ts" => "video/mp2t"
        | ".m4s" => "video/mp4"
        | ".m4v" => "video/mp4"
        | ".mp4" => "video/mp4"
        | _ => st.mimeType
      else st.mimeType
    let dur := seg.Duration / 1000000
    if dur > 2 ^ 32 - 1 then .error "segment duration > uint32"
    else
      match seg.ByteRangeLength with
      | some size =>
        let fp0 := if !st.isIndexed then { st.fp with Timescale := 1000 } else st.fp
        if size > 2 ^ 32 - 1 then .error "segment size > uint32"
        else
          m3u8SegLoop u rest
            { st with
              mimeType := mt, isIndexed := true,
              fp := { fp0 with
                      SegmentSizes := fp0.SegmentSizes ++ [size % 2 ^ 32],
                      SegmentDurations := fp0.SegmentDurations ++ [dur % 2 ^ 32] } }
      | none =>
        m3u8SegLoop u rest
          { st with
            mimeType := mt,
            info := { st.info with
                      URLs := st.info.URLs ++ [resolveReference u seg.URI],
                      SegmentDurations := st.info.SegmentDurations ++ [dur % 2 ^ 32] } }

/-- Model of DefaultVariantExtractor.extractM3U8Variant: parse the resolution
(WIDTHxHEIGHT, 32-bit), bound the bandwidth, take the first codec, fetch the
media playlist (oracle fetchPl) at the resolved URI, run the segment loop,
then fill the variant: fingerprinted mode with the embedded fingerprint when
a byte-range segment was seen, explicit mode with the accumulated info
otherwise; the identifier is computed after all fields are set. -/
def extractM3U8Variant (fetchPl : String → Except String Playlist) (url : String)
    (servers : List String) (v : MultivariantVariant) : Except String Variant :=
  let cut := stringsCut v.Resolution "x"
  if !cut.2.2 then .error ("resolution: " ++ v.Resolution)
  else
    match parseUint32 cut.1 with
    | none => .error "width"
    | some width =>
      match parseUint32 cut.2.1 with
      | none => .error "height"
      | some height =>
        if v.Bandwidth > (2 ^ 32 - 1 : Int) then .error "bandwidth > uint32"
        else
          let bandwidth := intToUInt32 v.Bandwidth
          match v.Codecs with
          | [] => .error "no codecs"
          | codecs :: _ =>
            let u := resolveReference url v.URI
            match fetchPl u with
            | .error e => .error ("fetch m3u8: " ++ e)
            | .ok (.multivariant _) => .error "media playlist not found"
            | .ok (.media segs) =>
              match m3u8SegLoop u segs { info := { Servers := servers, Timescale := 1000 } } with
              | .error e => .error e
              | .ok st =>
                .ok { ID := computeID st.mimeType codecs width height bandwidth,
                      MimeType := st.mimeType, Codecs := codecs,
                      Width := width, Height := height, Bandwidth := bandwidth,
                      AddressingMode := if st.isIndexed then "fingerprinted" else "explicit",
                      IndexedAddressingInfo := none,
                      ExplicitAddressingInfo := if st.isIndexed then none else some st.info,
                      Fingerprint := if st.isIndexed then some st.fp else none }

/-- The fan-out of extractM3U8Variants over the master playlist entries:
entries without a RESOLUTION attribute are skipped (their zero variant is
filtered out by the empty addressing mode afterwards); the errgroup surfaces
an error of a failed entry, modeled as the first failure in list order. -/
def m3u8VariantsLoop (fetchPl : String → Except String Playlist) (u : String)
    (servers : List String) : List MultivariantVariant → Except String (List Variant)
  | [] => .ok []
  | v :: rest =>
    if v.Resolution = "" then m3u8VariantsLoop fetchPl u servers rest
    else
      match extractM3U8Variant fetchPl u servers v with
      | .error e => .error ("extract m3u8 variant: " ++ e)
      | .ok w =>
        match m3u8VariantsLoop fetchPl u servers rest with
        | .error e => .error e
        | .ok ws => .ok (w :: ws)

/-- Model of DefaultVariantExtractor.extractM3U8Variants: resolve or read the
top-level playlist (fetchPl over HTTP after the random $Server$ pick, readPl
for a local file), require a master playlist, fan out over its entries. -/
def extractM3U8Variants (rnd : Nat → Nat) (fetchPl readPl : String → Except String Playlist)
    (reference : Reference) : Except String (List Variant) :=
  let isURL := isHTTPURL reference.URL
  let fetched : Except String (Playlist × String) :=
    if isURL then
      let u := if reference.Servers.length > 0 then
          stringsReplace1 reference.URL "$Server$"
            (reference.Servers.getD (rnd 0 % reference.Servers.length) "")
        else reference.URL
      match fetchPl u with
      | .error e => .error ("fetch m3u8: " ++ e)
      | .ok p => .ok (p, u)
    else
      match readPl reference.URL with
      | .error e => .error ("read m3u8: " ++ e)
      | .ok p =>
        let u := if reference.Servers.length > 0 then reference.Servers.getD 0 ""
          else reference.URL
        .ok (p, u)
  match fetched with
  | .error e => .error e
  | .ok (.media _, _) => .error "master playlist not found"
  | .ok (.multivariant vars, u) => m3u8VariantsLoop fetchPl u reference.Servers vars

/-- Model of DefaultVariantExtractor.ExtractVariants: dispatch on the
reference format. -/
def ExtractVariants (rnd : Nat → Nat) (fetchMPD readMPD : String → Except String MPD)
    (fetchPl readPl : String → Except String Playlist) (reference : Reference) :
    Except String (List Variant) :=
  if reference.Format = "dash" then extractMPDVariants rnd fetchMPD readMPD reference
  else if reference.Format = "hls" then extractM3U8Variants rnd fetchPl readPl reference
  else .error ("unsupported format " ++ reference.Format)

/-! ### Fingerprinter (fingerprinter.go)

HTTP and file IO are oracles: fetchSidx models fetchIndex/readRange plus
extractSIDX on the fetched bytes; head models one fetchContentLength call
(per URL string and attempt index); cancelled models ctx.Err() being non-nil
when observed after a given attempt; rndSrv and rndSleep model the rand.Intn
draws for the $Server$ pick and the back-off sleep of a given attempt. -/

/-- The observable outcome of the per-URL HEAD retry loop: the accepted
content length (or the surfaced error), the number of fetch attempts made,
and the sleep durations (milliseconds) taken between attempts. -/
structure RetryTrace where
  result : Except String Int
  attempts : Nat
  sleeps : List Nat
deriving Repr

/-- The per-attempt $Server$ substitution inside the retry loop of
fingerprintExplicit (a no-op once a first substitution stuck). -/
def headRetrySubst (rndSrv : Nat → Nat) (servers : List String) (u : String) (tryN : Nat) :
    String :=
  if servers.length > 0 then
    stringsReplace1 u "$Server$" (servers.getD (rndSrv tryN % servers.length) "")
  else u

/-- The retry loop body of fingerprintExplicit for one URL. Each iteration
substitutes $Server$, performs the HEAD (oracle head), then checks the
enclosing cancellation; an error with fewer than 5 retries spent (the source
check try < retries) sleeps rand.Intn(1000) milliseconds and retries, a
sixth failure is surfaced, and an accepted length is bounded by uint32. The
fuel argument makes the recursion structural: it equals 5 - tryN at every
call (the entry point passes 5 with tryN 0), so the fuel-exhausted branch is
unreachable and surfaces the error exactly like the final attempt. -/
def headRetryLoop (head : String → Nat → Except String Int) (cancelled : Nat → Bool)
    (rndSrv rndSleep : Nat → Nat) (servers : List String) :
    Nat → String → Nat → RetryTrace
  | fuel, u, tryN =>
    if cancelled tryN then { result := .error "context canceled", attempts := 1, sleeps := [] }
    else
      match head (headRetrySubst rndSrv servers u tryN) tryN with
      | .error e =>
        if tryN < 5 then
          match fuel with
          | fuel1 + 1 =>
            let tr := headRetryLoop head cancelled rndSrv rndSleep servers fuel1
              (headRetrySubst rndSrv servers u tryN) (tryN + 1)
            { tr with attempts := 1 + tr.attempts, sleeps := (rndSleep tryN % 1000) :: tr.sleeps }
          | 0 => { result := .error ("fetch content length: " ++ e), attempts := 1, sleeps := [] }
        else { result := .error ("fetch content length: " ++ e), attempts := 1, sleeps := [] }
      | .ok l =>
        if l > (2 ^ 32 - 1 : Int) then
          { result := .error "content length > uint32", attempts := 1, sleeps := [] }
        else { result := .ok l, attempts := 1, sleeps := [] }

/-- The per-URL result used by fingerprintExplicit, one retry loop per URL
position (oracles are indexed by the URL position to model the independent
goroutines). -/
def explicitResults (head : Nat → String → Nat → Except String Int)
    (cancelled : Nat → Nat → Bool) (rndSrv rndSleep : Nat → Nat → Nat)
    (info : ExplicitAddressingInfo) : List (Except String Int) :=
  (List.range info.URLs.length).map (fun i =>
    (headRetryLoop (head i) (cancelled i) (rndSrv i) (rndSleep i) info.Servers 5
      (info.URLs.getD i "") 0).result)

/-- Model of DefaultFingerprinter.fingerprintExplicit: the sizes array has one
slot per URL, filled positionally with the uint32 conversion of the accepted
content length; the durations array and timescale are taken from the info
unchanged; any per-URL failure fails the whole fingerprint (the errgroup
surfaces a failed goroutine's error, modeled as the first failure in URL
order). -/
def fingerprintExplicit (head : Nat → String → Nat → Except String Int)
    (cancelled : Nat → Nat → Bool) (rndSrv rndSleep : Nat → Nat → Nat)
    (info : ExplicitAddressingInfo) : Except String Fingerprint :=
  let results := explicitResults head cancelled rndSrv rndSleep info
  match results.findSome? (fun r => match r with | .error e => some e | .ok _ => none) with
  | some e => .error e
  | none =>
    .ok { SegmentSizes := results.map (fun r => match r with | .ok l => intToUInt32 l | .error _ => 0),
          SegmentDurations := info.SegmentDurations,
          Timescale := info.Timescale }

/-- Model of DefaultFingerprinter.fingerprintIndexedMP4: default the index
range to 0-65535 when empty, fetch and parse the SIDX (oracle, covering both
the HTTP range request and the local file read), and materialize one
(size, duration) pair per SIDX reference with the SIDX timescale. -/
def fingerprintIndexedMP4 (fetchSidx : String → String → Except String Sidx)
    (info : IndexedAddressingInfo) : Except String Fingerprint :=
  let indexRange := if info.IndexRange = "" then "0-65535" else info.IndexRange
  match fetchSidx info.URL indexRange with
  | .error e => .error e
  | .ok sidx =>
    .ok { SegmentSizes := sidx.References.map (·.ReferencedSize),
          SegmentDurations := sidx.References.map (·.SubsegmentDuration),
          Timescale := sidx.Timescale }

/-- Model of DefaultFingerprinter.fingerprintIndexed: dispatch on the mime
type; only video/mp4 is implemented. -/
def fingerprintIndexed (fetchSidx : String → String → Except String Sidx)
    (mimeType : String) (info : IndexedAddressingInfo) : Except String Fingerprint :=
  if mimeType = "video/mp4" then fingerprintIndexedMP4 fetchSidx info
  else if mimeType = "video/webm" then .error "webm not yet implemented"
  else .error ("unsupported mime type " ++ mimeType)

/-- Model of DefaultFingerprinter.Fingerprint: dispatch on the addressing
mode. The Go code dereferences the matching payload pointer; a nil payload
(impossible for extractor-produced variants) would panic, modeled as a
failure, which only shrinks the set of successful runs. -/
def FingerprintVariant (fetchSidx : String → String → Except String Sidx)
    (head : Nat → String → Nat → Except String Int) (cancelled : Nat → Nat → Bool)
    (rndSrv rndSleep : Nat → Nat → Nat) (variant : Variant) : Except String Fingerprint :=
  if variant.AddressingMode = "indexed" then
    match variant.IndexedAddressingInfo with
    | some info => fingerprintIndexed fetchSidx variant.MimeType info
    | none => .error "nil indexed addressing info"
  else if variant.AddressingMode = "explicit" then
    match variant.ExplicitAddressingInfo with
    | some info => fingerprintExplicit head cancelled rndSrv rndSleep info
    | none => .error "nil explicit addressing info"
  else if variant.AddressingMode = "fingerprinted" then
    match variant.Fingerprint with
    | some fp => .ok fp
    | none => .error "nil fingerprint"
  else .error ("unsupported addressing mode " ++ variant.AddressingMode)

/-! ### Orchestrator fragments (service.go) -/

/-- One step of the seen-map loop in Manager.Extract: skip a variant whose ID
was already seen, otherwise keep it and mark its ID. -/
def dedupStep (acc : List Variant × List String) (v : Variant) : List Variant × List String :=
  if acc.2.contains v.ID then acc else (acc.1 ++ [v], v.ID :: acc.2)

/-- The deduplication pass of Manager.Extract: keep the first variant for
each distinct ID, in extraction order (the seen map plus the skip in the
fingerprint fan-out loop). -/
def dedupVariants (variants : List Variant) : List Variant :=
  (variants.foldl dedupStep ([], [])).1

/-- The success path of Manager.fingerprint: attach the computed fingerprint
to the variant. -/
def attachFingerprint (v : Variant) (fp : Fingerprint) : Variant :=
  { v with Fingerprint := some fp }

/-! ### Lemmas on the timeline emission loop -/

/-- Mapping over a split range: the image of range (a + b) splits into the
image of range a and the shifted image of range b. -/
theorem range_map_split (f : Nat → α) (a b : Nat) :
    (List.range (a + b)).map f = (List.range a).map f ++ (List.range b).map (fun j => f (a + j)) := by
  rw [List.range_add, List.map_append, List.map_map]
  rfl

/-- A successful $Number$-mode emission yields the flattened per-entry
duration blocks, URLs numbered consecutively from the starting number, and
certifies every non-nil entry in bounds. -/
theorem emitTimeline_number_ok (T : String) :
    ∀ (entries : List (Option SElem)) (num : Nat) (us : List String) (ds : List Nat),
      emitTimeline T false entries num = .ok (us, ds) →
      ds = ((entries.filterMap id).map
            (fun s => List.replicate (1 + s.r.toNat) (s.d % 2 ^ 32))).flatten
      ∧ us = (List.range ds.length).map
            (fun j => stringsReplace1 T "$Number$" (Nat.repr (num + j)))
      ∧ ∀ s ∈ entries.filterMap id, 0 ≤ s.r ∧ s.d ≤ 2 ^ 32 - 1
  | [], num, us, ds, h => by
    simp only [emitTimeline, Except.ok.injEq, Prod.mk.injEq] at h
    obtain ⟨h1, h2⟩ := h
    simp [← h1, ← h2]
  | none :: rest, num, us, ds, h => by
    simp only [emitTimeline] at h
    obtain ⟨h1, h2, h3⟩ := emitTimeline_number_ok T rest num us ds h
    exact ⟨by simpa using h1, h2, by simpa using h3⟩
  | some s :: rest, num, us, ds, h => by
    simp only [emitTimeline] at h
    split at h
    · exact Except.noConfusion h
    next hd =>
      split at h
      next htp => exact absurd htp (by simp)
      next htp =>
        split at h
        · exact Except.noConfusion h
        next hr =>
          split at h
          · exact Except.noConfusion h
          next us1 ds1 hrec =>
            obtain ⟨ih1, ih2, ih3⟩ :=
              emitTimeline_number_ok T rest (num + (1 + s.r.toNat)) us1 ds1 hrec
            simp only [Except.ok.injEq, Prod.mk.injEq] at h
            obtain ⟨hus, hds⟩ := h
            refine ⟨?_, ?_, ?_⟩
            · simp [← hds, ih1]
            · rw [← hus, ih2]
              have hlen2 : ds.length = (1 + s.r.toNat) + ds1.length := by
                simp [← hds]
              conv_rhs => rw [hlen2, range_map_split]
              congr 1
              apply List.map_congr_left
              intro j _
              congr 2
              omega
            · intro x hx
              rcases List.mem_filterMap.mp hx with ⟨o, ho, hox⟩
              rcases List.mem_cons.mp ho with h1 | h1
              · rw [h1] at hox
                cases hox
                refine ⟨by omega, by omega⟩
              · exact ih3 x (List.mem_filterMap.mpr ⟨o, h1, hox⟩)

/-- A successful $Time$-mode emission yields one duration per non-nil entry,
the $Time$-substituted URL per entry, and certifies time presence and the
uint32 bound. -/
theorem emitTimeline_time_ok (T : String) :
    ∀ (entries : List (Option SElem)) (num : Nat) (us : List String) (ds : List Nat),
      emitTimeline T true entries num = .ok (us, ds) →
      ds = (entries.filterMap id).map (fun s => s.d % 2 ^ 32)
      ∧ us = (entries.filterMap id).map
            (fun s => stringsReplace1 T "$Time$" (Nat.repr (s.t.getD 0)))
      ∧ ∀ s ∈ entries.filterMap id, s.t.isSome ∧ s.d ≤ 2 ^ 32 - 1
  | [], num, us, ds, h => by
    simp only [emitTimeline, Except.ok.injEq, Prod.mk.injEq] at h
    obtain ⟨h1, h2⟩ := h
    simp [← h1, ← h2]
  | none :: rest, num, us, ds, h => by
    simp only [emitTimeline] at h
    obtain ⟨h1, h2, h3⟩ := emitTimeline_time_ok T rest num us ds h
    exact ⟨by simpa using h1, by simpa using h2, by simpa using h3⟩
  | some s :: rest, num, us, ds, h => by
    simp only [emitTimeline] at h
    split at h
    · exact Except.noConfusion h
    next hd =>
      split at h
      next htp =>
        split at h
        · exact Except.noConfusion h
        next t ht =>
          split at h
          · exact Except.noConfusion h
          next us1 ds1 hrec =>
            obtain ⟨ih1, ih2, ih3⟩ := emitTimeline_time_ok T rest num us1 ds1 hrec
            simp only [Except.ok.injEq, Prod.mk.injEq] at h
            obtain ⟨hus, hds⟩ := h
            refine ⟨?_, ?_, ?_⟩
            · simp [← hds, ih1, ht]
            · simp [← hus, ih2, ht]
            · intro x hx
              rcases List.mem_filterMap.mp hx with ⟨o, ho, hox⟩
              rcases List.mem_cons.mp ho with h1 | h1
              · rw [h1] at hox
                cases hox
                exact ⟨by simp [ht], by omega⟩
              · exact ih3 x (List.mem_filterMap.mpr ⟨o, h1, hox⟩)
      next htp => simp at htp

/-- When every non-nil entry is structurally valid for the active placeholder
mode, an oversized segment duration is reported as exactly the overflow
error. -/
theorem emitTimeline_overflow (T : String) (tp : Bool) :
    ∀ (entries : List (Option SElem)) (num : Nat),
      (∀ s ∈ entries.filterMap id, (tp = true → s.t.isSome) ∧ (tp = false → 0 ≤ s.r)) →
      (∃ s ∈ entries.filterMap id, s.d > 2 ^ 32 - 1) →
      emitTimeline T tp entries num = .error "segment duration > uint32"
  | [], num, hval, hbad => by simp at hbad
  | none :: rest, num, hval, hbad => by
    simp only [emitTimeline]
    exact emitTimeline_overflow T tp rest num (by simpa using hval) (by simpa using hbad)
  | some s :: rest, num, hval, hbad => by
    by_cases hd : s.d > 2 ^ 32 - 1
    · simp only [emitTimeline]
      rw [if_pos (by omega)]
    · have hs : s ∈ (some s :: rest).filterMap id := by simp
      have hbadr : ∃ x ∈ rest.filterMap id, x.d > 2 ^ 32 - 1 := by
        rcases hbad with ⟨x, hx, hxd⟩
        rcases List.mem_filterMap.mp hx with ⟨o, ho, hox⟩
        rcases List.mem_cons.mp ho with h1 | h1
        · rw [h1] at hox; cases hox; omega
        · exact ⟨x, List.mem_filterMap.mpr ⟨o, h1, hox⟩, hxd⟩
      have hvalr : ∀ x ∈ rest.filterMap id, (tp = true → x.t.isSome) ∧ (tp = false → 0 ≤ x.r) := by
        intro x hx
        rcases List.mem_filterMap.mp hx with ⟨o, ho, hox⟩
        exact hval x (List.mem_filterMap.mpr ⟨o, List.mem_cons_of_mem _ ho, hox⟩)
      simp only [emitTimeline]
      rw [if_neg (by omega)]
      cases tp with
      | true =>
        have ih := emitTimeline_overflow T true rest num hvalr hbadr
        obtain ⟨ht, _⟩ := hval s hs
        cases hts : s.t with
        | none => simp [hts] at ht
        | some t => simp [hts, ih]
      | false =>
        have ih := emitTimeline_overflow T false rest (num + (1 + s.r.toNat)) hvalr hbadr
        have hr : ¬ s.r < 0 := by
          have := (hval s hs).2 rfl
          omega
        simp only [Bool.false_eq_true, if_false]
        rw [if_neg hr, ih]

/-- When every non-nil entry is in bounds and structurally valid, the
emission succeeds. -/
theorem emitTimeline_total (T : String) (tp : Bool) :
    ∀ (entries : List (Option SElem)) (num : Nat),
      (∀ s ∈ entries.filterMap id,
        s.d ≤ 2 ^ 32 - 1 ∧ (tp = true → s.t.isSome) ∧ (tp = false → 0 ≤ s.r)) →
      ∃ us ds, emitTimeline T tp entries num = .ok (us, ds)
  | [], num, hval => ⟨[], [], rfl⟩
  | none :: rest, num, hval => by
    simp only [emitTimeline]
    exact emitTimeline_total T tp rest num (by simpa using hval)
  | some s :: rest, num, hval => by
    have hs : s ∈ (some s :: rest).filterMap id := by simp
    have hvr : ∀ x ∈ rest.filterMap id,
        x.d ≤ 2 ^ 32 - 1 ∧ (tp = true → x.t.isSome) ∧ (tp = false → 0 ≤ x.r) := by
      intro x hx
      rcases List.mem_filterMap.mp hx with ⟨o, ho, hox⟩
      exact hval x (List.mem_filterMap.mpr ⟨o, List.mem_cons_of_mem _ ho, hox⟩)
    obtain ⟨hd, ht, hr⟩ := hval s hs
    simp only [emitTimeline]
    rw [if_neg (by omega)]
    cases tp with
    | true =>
      simp only [if_pos rfl]
      cases hts : s.t with
      | none => rw [hts] at ht; simp at ht
      | some t =>
        obtain ⟨us1, ds1, hrec⟩ := emitTimeline_total T true rest num hvr
        rw [hrec]
        exact ⟨_, _, rfl⟩
    | false =>
      have hr0 : ¬ s.r < 0 := by have := hr rfl; omega
      simp only [Bool.false_eq_true, if_false]
      rw [if_neg hr0]
      obtain ⟨us1, ds1, hrec⟩ := emitTimeline_total T false rest (num + (1 + s.r.toNat)) hvr
      rw [hrec]
      exact ⟨_, _, rfl⟩

/-! ### Lemmas on parseMPDExplicitAddressingInfo -/

/-- A successful parse fixes the template URL, the timescale (the library
default applied), an empty server list, and equal URL/duration lengths. -/
theorem parse_ok_fields (u : String) (st : SegmentTemplateType) (info : ExplicitAddressingInfo)
    (h : parseMPDExplicitAddressingInfo u st = .ok info) :
    info.TemplateURL = resolveReference u st.Media
    ∧ info.Timescale = st.GetTimescale
    ∧ info.Servers = []
    ∧ info.URLs.length = info.SegmentDurations.length := by
  simp only [parseMPDExplicitAddressingInfo] at h
  split at h
  · exact Except.noConfusion h
  next tl htl =>
    split at h
    · exact Except.noConfusion h
    next hplc =>
      split at h
      · exact Except.noConfusion h
      next us ds hemit =>
        simp only [Except.ok.injEq] at h
        subst h
        refine ⟨rfl, rfl, rfl, ?_⟩
        cases htp : stringsContains st.Media "$Time$" with
        | true =>
          rw [htp] at hemit
          obtain ⟨hds, hus, _⟩ := emitTimeline_time_ok _ _ _ _ _ hemit
          simp [hus, hds]
        | false =>
          rw [htp] at hemit
          obtain ⟨hds, hus, _⟩ := emitTimeline_number_ok _ _ _ _ _ hemit
          simp [hus]

/-- The amended concrete scenario of the spec: startNumber 5 and two S
entries (d 1000, r 2), (d 500, r 0), under a $Number$ media template. -/
def stC3 : SegmentTemplateType :=
  { Media := "https://cdn.example/v/seg_$Number$.m4s", StartNumber := some 5,
    SegmentTimeline := some { S := [some { d := 1000, r := 2 }, some { d := 500, r := 0 }] } }

/-- A template carrying both placeholders with a negative repeat: the $Time$
path is taken and the negative repeat is never checked. -/
def stC3x : SegmentTemplateType :=
  { Media := "https://cdn.example/v/seg_$Time$_$Number$.m4s",
    SegmentTimeline := some { S := [some { t := some 0, d := 1, r := -1 }] } }

/-- C3 counterexample: a SegmentTemplate whose media contains $Number$ (and
also $Time$) and whose timeline entry has repeat r = -1 < 0, yet
materialization succeeds, contradicting the claim that it must fail. -/
theorem C3_counterexample :
    stringsContains stC3x.Media "$Number$" = true
    ∧ stC3x.SegmentTimeline = some { S := [some { t := some 0, d := 1, r := -1 }] }
    ∧ (∃ s ∈ (SegmentTimelineType.S { S := [some { t := some 0, d := 1, r := -1 }] }).filterMap id,
        s.r < 0)
    ∧ (parseMPDExplicitAddressingInfo "https://cdn.example/v/" stC3x).isOk = true := by
  refine ⟨by decide, rfl, ⟨{ t := some 0, d := 1, r := -1 }, by decide, by decide⟩, rfl⟩

/-- C3 (amended: the media template contains $Number$ and not $Time$): with a
timeline present, materialization fails when some entry has a negative
repeat; on success the durations are the per-entry blocks of 1 + r copies of
d and the URLs substitute a running number starting at startNumber (default
1) incremented once per emitted pair; and the concrete spec scenario with
startNumber 5 yields exactly the four pairs numbered 5, 6, 7, 8 with
durations 1000, 1000, 1000, 500. -/
theorem C3_number_materialization (u : String) (st : SegmentTemplateType)
    (tl : SegmentTimelineType)
    (hnum : stringsContains st.Media "$Number$" = true)
    (htime : stringsContains st.Media "$Time$" = false)
    (htl : st.SegmentTimeline = some tl) :
    ((∃ s ∈ tl.S.filterMap id, s.r < 0) →
      (parseMPDExplicitAddressingInfo u st).isOk = false)
    ∧ (∀ info, parseMPDExplicitAddressingInfo u st = .ok info →
        info.SegmentDurations = ((tl.S.filterMap id).map
          (fun s => List.replicate (1 + s.r.toNat) s.d)).flatten
        ∧ info.URLs = (List.range info.SegmentDurations.length).map
            (fun j => stringsReplace1 (resolveReference u st.Media) "$Number$"
              (Nat.repr (st.StartNumber.getD 1 + j)))
        ∧ info.URLs.length = info.SegmentDurations.length)
    ∧ parseMPDExplicitAddressingInfo "https://cdn.example/v/" stC3 =
        .ok { TemplateURL := "https://cdn.example/v/seg_$Number$.m4s",
              URLs := ["https://cdn.example/v/seg_5.m4s", "https://cdn.example/v/seg_6.m4s",
                       "https://cdn.example/v/seg_7.m4s", "https://cdn.example/v/seg_8.m4s"],
              Servers := [], SegmentDurations := [1000, 1000, 1000, 500], Timescale := 1 } := by
  have hcore : ∀ r, parseMPDExplicitAddressingInfo u st = r ↔
      (match emitTimeline (resolveReference u st.Media) false tl.S (st.StartNumber.getD 1) with
        | .error e => (.error e : Except String ExplicitAddressingInfo)
        | .ok (us, ds) =>
          .ok { TemplateURL := resolveReference u st.Media, URLs := us, Servers := [],
                SegmentDurations := ds, Timescale := st.GetTimescale }) = r := by
    intro r
    simp only [parseMPDExplicitAddressingInfo, htl, htime, hnum]
    simp
  refine ⟨?_, ?_, ?_⟩
  · rintro ⟨s, hs, hr⟩
    cases hemit : emitTimeline (resolveReference u st.Media) false tl.S (st.StartNumber.getD 1) with
    | error e =>
      have := (hcore (.error e)).mpr (by rw [hemit])
      rw [this]
      rfl
    | ok p =>
      obtain ⟨_, _, h3⟩ := emitTimeline_number_ok _ _ _ p.1 p.2 (by rw [hemit])
      have := (h3 s hs).1
      omega
  · intro info hinfo
    rw [hcore (.ok info)] at hinfo
    cases hemit : emitTimeline (resolveReference u st.Media) false tl.S (st.StartNumber.getD 1) with
    | error e => rw [hemit] at hinfo; exact Except.noConfusion hinfo
    | ok p =>
      obtain ⟨us, ds⟩ := p
      rw [hemit] at hinfo
      obtain ⟨h1, h2, h3⟩ := emitTimeline_number_ok _ _ _ us ds hemit
      simp only [Except.ok.injEq] at hinfo
      subst hinfo
      refine ⟨?_, ?_, ?_⟩
      · show ds = _
        rw [h1]
        congr 1
        apply List.map_congr_left
        intro s hs
        have := (h3 s hs).2
        congr 1
        omega
      · exact h2
      · show us.length = ds.length
        rw [h2]
        simp
  · rfl

/-- The boundary scenario of the spec: a single entry with duration exactly
2 ^ 32 - 1. -/
def stC8 : SegmentTemplateType :=
  { Media := "https://cdn.example/v/seg_$Number$.m4s",
    SegmentTimeline := some { S := [some { d := 4294967295, r := 0 }] } }

/-- The same scenario one past the boundary: duration 2 ^ 32. -/
def stC8x : SegmentTemplateType :=
  { Media := "https://cdn.example/v/seg_$Number$.m4s",
    SegmentTimeline := some { S := [some { d := 4294967296, r := 0 }] } }

/-- C8: a segment duration of exactly 2 ^ 32 - 1 is accepted and emitted
unchanged, while any duration above it fails materialization with the
overflow error; concretely, the single-entry timeline at the boundary
succeeds emitting 4294967295 and the one just above fails. -/
theorem C8_duration_boundary (u : String) (st : SegmentTemplateType)
    (tl : SegmentTimelineType) (htl : st.SegmentTimeline = some tl)
    (hval : ∀ s ∈ tl.S.filterMap id,
      (stringsContains st.Media "$Time$" = true → s.t.isSome)
      ∧ (stringsContains st.Media "$Time$" = false → 0 ≤ s.r))
    (hplc : stringsContains st.Media "$Time$" = true
      ∨ stringsContains st.Media "$Number$" = true) :
    ((∃ s ∈ tl.S.filterMap id, s.d > 2 ^ 32 - 1) →
      parseMPDExplicitAddressingInfo u st = .error "segment duration > uint32")
    ∧ ((∀ s ∈ tl.S.filterMap id, s.d ≤ 2 ^ 32 - 1) →
        ∃ info, parseMPDExplicitAddressingInfo u st = .ok info
          ∧ ∀ s ∈ tl.S.filterMap id, s.d ∈ info.SegmentDurations)
    ∧ parseMPDExplicitAddressingInfo "https://cdn.example/v/" stC8 =
        .ok { TemplateURL := "https://cdn.example/v/seg_$Number$.m4s",
              URLs := ["https://cdn.example/v/seg_1.m4s"],
              Servers := [], SegmentDurations := [4294967295], Timescale := 1 }
    ∧ parseMPDExplicitAddressingInfo "https://cdn.example/v/" stC8x =
        .error "segment duration > uint32" := by
  have hplcF : (!stringsContains st.Media "$Time$"
      && !stringsContains st.Media "$Number$") = false := by
    rcases hplc with h | h <;> simp [h]
  have hcore : ∀ r, parseMPDExplicitAddressingInfo u st = r ↔
      (match emitTimeline (resolveReference u st.Media) (stringsContains st.Media "$Time$")
          tl.S (st.StartNumber.getD 1) with
        | .error e => (.error e : Except String ExplicitAddressingInfo)
        | .ok (us, ds) =>
          .ok { TemplateURL := resolveReference u st.Media, URLs := us, Servers := [],
                SegmentDurations := ds, Timescale := st.GetTimescale }) = r := by
    intro r
    simp only [parseMPDExplicitAddressingInfo, htl, hplcF]
    simp
  refine ⟨?_, ?_, ?_, ?_⟩
  · intro hbad
    have hov := emitTimeline_overflow (resolveReference u st.Media)
      (stringsContains st.Media "$Time$") tl.S (st.StartNumber.getD 1) hval hbad
    rw [hcore, hov]
  · intro hok
    have hvt : ∀ s ∈ tl.S.filterMap id,
        s.d ≤ 2 ^ 32 - 1 ∧ (stringsContains st.Media "$Time$" = true → s.t.isSome)
        ∧ (stringsContains st.Media "$Time$" = false → 0 ≤ s.r) := by
      intro s hs
      exact ⟨hok s hs, (hval s hs).1, (hval s hs).2⟩
    obtain ⟨us, ds, hemit⟩ := emitTimeline_total (resolveReference u st.Media)
      (stringsContains st.Media "$Time$") tl.S (st.StartNumber.getD 1) hvt
    refine ⟨_, (hcore _).mpr (by rw [hemit]), ?_⟩
    intro s hs
    show s.d ∈ ds
    cases htp : stringsContains st.Media "$Time$" with
    | true =>
      rw [htp] at hemit
      obtain ⟨hds, _, _⟩ := emitTimeline_time_ok _ _ _ _ _ hemit
      rw [hds]
      have : s.d % 2 ^ 32 = s.d := by have := hok s hs; omega
      exact this ▸ List.mem_map_of_mem _ hs
    | false =>
      rw [htp] at hemit
      obtain ⟨hds, _, _⟩ := emitTimeline_number_ok _ _ _ _ _ hemit
      rw [hds]
      have hmem : List.replicate (1 + s.r.toNat) (s.d % 2 ^ 32) ∈
          (tl.S.filterMap id).map (fun t => List.replicate (1 + t.r.toNat) (t.d % 2 ^ 32)) :=
        List.mem_map_of_mem _ hs
      have : s.d % 2 ^ 32 = s.d := by have := hok s hs; omega
      rw [this] at hmem
      exact List.mem_flatten.mpr ⟨_, hmem, List.mem_replicate.mpr ⟨by omega, rfl⟩⟩
  · rfl
  · rfl

/-- C3 witness: the materialization theorem applied to the concrete
startNumber-5 scenario. -/
theorem C3_witness :
    parseMPDExplicitAddressingInfo "https://cdn.example/v/" stC3 =
      .ok { TemplateURL := "https://cdn.example/v/seg_$Number$.m4s",
            URLs := ["https://cdn.example/v/seg_5.m4s", "https://cdn.example/v/seg_6.m4s",
                     "https://cdn.example/v/seg_7.m4s", "https://cdn.example/v/seg_8.m4s"],
            Servers := [], SegmentDurations := [1000, 1000, 1000, 500], Timescale := 1 } :=
  (C3_number_materialization "https://cdn.example/v/" stC3
    { S := [some { d := 1000, r := 2 }, some { d := 500, r := 0 }] }
    (by decide) (by decide) rfl).2.2

/-- C8 witness: the boundary theorem applied to the concrete single-entry
timeline, giving acceptance at 2 ^ 32 - 1 and the overflow error at 2 ^ 32. -/
theorem C8_witness :
    parseMPDExplicitAddressingInfo "https://cdn.example/v/" stC8 =
      .ok { TemplateURL := "https://cdn.example/v/seg_$Number$.m4s",
            URLs := ["https://cdn.example/v/seg_1.m4s"],
            Servers := [], SegmentDurations := [4294967295], Timescale := 1 }
    ∧ parseMPDExplicitAddressingInfo "https://cdn.example/v/" stC8x =
      .error "segment duration > uint32" :=
  (C8_duration_boundary "https://cdn.example/v/" stC8
    { S := [some { d := 4294967295, r := 0 }] }
    rfl (by decide) (Or.inr (by decide))).2.2

/-! ### Association-list and group lemmas for the multi-period merge -/

/-- Reading back an updated association list. -/
theorem assocGetD_set (k k1 : String) (f : α → α) (d d1 : α) :
    ∀ l : List (String × α),
      assocGetD k1 d1 (assocSet k f d l) =
        if k1 = k then f (assocGetD k d l) else assocGetD k1 d1 l
  | [] => by
    by_cases h : k1 = k
    · subst h
      simp [assocSet, assocGetD]
    · have hs : k ≠ k1 := fun he => h he.symm
      simp [assocSet, assocGetD, h, hs]
  | (k2, v) :: rest => by
    by_cases h2 : k2 = k
    · subst h2
      by_cases h1 : k1 = k2
      · subst h1
        simp [assocSet, assocGetD]
      · have h1s : k2 ≠ k1 := fun he => h1 he.symm
        simp [assocSet, assocGetD, h1, h1s]
    · by_cases h1 : k1 = k2
      · subst h1
        have hk : ¬ k1 = k := h2
        simp [assocSet, assocGetD, h2, hk]
      · have h1s : k2 ≠ k1 := fun he => h1 he.symm
        simp [assocSet, assocGetD, h2, h1, h1s, assocGetD_set k k1 f d d1 rest]

/-- The keys of an updated association list: unchanged when the key is
present, extended by the key otherwise. -/
theorem keys_assocSet (k : String) (f : α → α) (d : α) :
    ∀ l : List (String × α),
      (assocSet k f d l).map (·.1) =
        if k ∈ l.map (·.1) then l.map (·.1) else l.map (·.1) ++ [k]
  | [] => by simp [assocSet]
  | (k2, v) :: rest => by
    by_cases h2 : k2 = k
    · subst h2
      simp [assocSet]
    · simp only [assocSet, if_neg h2, List.map_cons]
      rw [keys_assocSet k f d rest]
      by_cases hm : k ∈ rest.map (·.1)
      · simp [hm, Ne.symm h2]
      · simp [hm, Ne.symm h2]

/-- Membership of a pair in an association list with distinct keys determines
the lookup. -/
theorem assocGetD_of_mem (k : String) (d : α) :
    ∀ l : List (String × α), (l.map (·.1)).Nodup → (k, v) ∈ l → assocGetD k d l = v
  | [], _, h => by simp at h
  | (k2, w) :: rest, hnd, h => by
    rcases List.mem_cons.mp h with h1 | h1
    · cases h1
      simp [assocGetD]
    · have hk2 : k2 ≠ k := by
        intro he
        subst he
        have : k2 ∈ rest.map (·.1) := List.mem_map.mpr ⟨(k2, v), h1, rfl⟩
        exact (List.nodup_cons.mp hnd).1 this
      simp only [assocGetD, if_neg hk2]
      exact assocGetD_of_mem k d rest (List.nodup_cons.mp hnd).2 h1

/-- assocSet preserves distinctness of keys. -/
theorem nodup_keys_assocSet (k : String) (f : α → α) (d : α) (l : List (String × α))
    (h : (l.map (·.1)).Nodup) : ((assocSet k f d l).map (·.1)).Nodup := by
  rw [keys_assocSet]
  by_cases hm : k ∈ l.map (·.1)
  · simpa [hm] using h
  · simp [hm, List.nodup_append, h]

/-- The group built by a sequence of add calls, as the period walk performs
them starting from newVariantGroup. -/
def buildGroup (items : List (Variant × Nat)) : variantGroup :=
  items.foldl (fun vg it => vg.add it.1 it.2) variantGroup.empty

/-- The members a key collects over a sequence of adds, in add order. -/
def membersOf (k : String) (items : List (Variant × Nat)) : List Variant :=
  (items.filter (fun it => variantKey it.1 == k)).map (·.1)

/-- The total duration a key collects over a sequence of adds. -/
def totalOf (k : String) (items : List (Variant × Nat)) : Nat :=
  ((items.filter (fun it => variantKey it.1 == k)).map (·.2)).sum

/-- The declarative largest total duration across the groups of a sequence of
adds. -/
def maxTotalOf (items : List (Variant × Nat)) : Nat :=
  (items.map (fun it => totalOf (variantKey it.1) items)).foldr max 0

theorem buildGroup_append (items : List (Variant × Nat)) (x : Variant × Nat) :
    buildGroup (items ++ [x]) = (buildGroup items).add x.1 x.2 := by
  simp [buildGroup, List.foldl_append]

theorem membersOf_append (k : String) (items : List (Variant × Nat)) (x : Variant × Nat) :
    membersOf k (items ++ [x]) =
      membersOf k items ++ (if variantKey x.1 = k then [x.1] else []) := by
  by_cases h : variantKey x.1 = k <;>
    simp [membersOf, List.filter_append, h]

theorem totalOf_append (k : String) (items : List (Variant × Nat)) (x : Variant × Nat) :
    totalOf k (items ++ [x]) = totalOf k items + (if variantKey x.1 = k then x.2 else 0) := by
  by_cases h : variantKey x.1 = k <;>
    simp [totalOf, List.filter_append, h]

theorem buildGroup_variants_getD (k : String) (items : List (Variant × Nat)) :
    assocGetD k [] (buildGroup items).variants = membersOf k items := by
  induction items using List.reverseRecOn with
  | nil => simp [buildGroup, variantGroup.empty, membersOf, assocGetD]
  | append_singleton items x ih =>
    rw [buildGroup_append, membersOf_append]
    simp only [variantGroup.add]
    rw [assocGetD_set]
    by_cases h : k = variantKey x.1
    · subst h
      rw [if_pos rfl, if_pos rfl, ih]
    · rw [if_neg h, if_neg (fun he => h he.symm), ih]
      simp

theorem buildGroup_durations_getD (k : String) (items : List (Variant × Nat)) :
    assocGetD k 0 (buildGroup items).durations = totalOf k items := by
  induction items using List.reverseRecOn with
  | nil => simp [buildGroup, variantGroup.empty, totalOf, assocGetD]
  | append_singleton items x ih =>
    rw [buildGroup_append, totalOf_append]
    simp only [variantGroup.add]
    rw [assocGetD_set]
    by_cases h : k = variantKey x.1
    · subst h
      rw [if_pos rfl, if_pos rfl, ih]
    · rw [if_neg h, if_neg (fun he => h he.symm), ih]
      simp

theorem buildGroup_keys_nodup (items : List (Variant × Nat)) :
    ((buildGroup items).variants.map (·.1)).Nodup := by
  induction items using List.reverseRecOn with
  | nil => simp [buildGroup, variantGroup.empty]
  | append_singleton items x ih =>
    rw [buildGroup_append]
    exact nodup_keys_assocSet _ _ _ _ ih

theorem buildGroup_keys_mem (items : List (Variant × Nat)) :
    ∀ k : String,
      k ∈ (buildGroup items).variants.map (·.1) ↔ ∃ it ∈ items, variantKey it.1 = k := by
  induction items using List.reverseRecOn with
  | nil => intro k; simp [buildGroup, variantGroup.empty]
  | append_singleton items x ih =>
    intro k
    rw [buildGroup_append]
    simp only [variantGroup.add]
    rw [keys_assocSet]
    by_cases hm : variantKey x.1 ∈ (buildGroup items).variants.map (·.1)
    · rw [if_pos hm, ih]
      constructor
      · rintro ⟨it, hit, hk⟩
        exact ⟨it, List.mem_append.mpr (Or.inl hit), hk⟩
      · rintro ⟨it, hit, hk⟩
        rcases List.mem_append.mp hit with h1 | h1
        · exact ⟨it, h1, hk⟩
        · simp only [List.mem_singleton] at h1
          rw [← hk, h1]
          exact (ih (variantKey x.1)).mp hm
    · rw [if_neg hm]
      constructor
      · intro hmem
        rcases List.mem_append.mp hmem with h1 | h1
        · obtain ⟨it, hit, hk⟩ := (ih k).mp h1
          exact ⟨it, List.mem_append.mpr (Or.inl hit), hk⟩
        · simp only [List.mem_singleton] at h1
          subst h1
          exact ⟨x, List.mem_append.mpr (Or.inr (by simp)), rfl⟩
      · rintro ⟨it, hit, hk⟩
        rcases List.mem_append.mp hit with h1 | h1
        · exact List.mem_append.mpr (Or.inl ((ih k).mpr ⟨it, h1, hk⟩))
        · simp only [List.mem_singleton] at h1
          rw [← hk, h1]
          exact List.mem_append.mpr (Or.inr (by simp))

/-- Folding max over a list bounds every element. -/
theorem le_foldr_max (l : List Nat) (a : Nat) (ha : a ∈ l) : a ≤ l.foldr max 0 := by
  induction l with
  | nil => simp at ha
  | cons b rest ih =>
    rcases List.mem_cons.mp ha with h | h
    · subst h
      exact le_max_left _ _
    · exact le_max_of_le_right (ih h)

/-- Folding max over a list is bounded by a common bound. -/
theorem foldr_max_le (l : List Nat) (b : Nat) (h : ∀ a ∈ l, a ≤ b) : l.foldr max 0 ≤ b := by
  induction l with
  | nil => simp
  | cons c rest ih =>
    simp only [List.foldr_cons, max_le_iff]
    exact ⟨h c (by simp), ih fun a ha => h a (by simp [ha])⟩

theorem foldr_max_init (l : List Nat) (i : Nat) : l.foldr max i = max (l.foldr max 0) i := by
  induction l with
  | nil => simp
  | cons c rest ih =>
    simp only [List.foldr_cons, ih]
    rw [max_assoc]

/-- The running maximum maintained by variantGroup.add equals the declarative
maximum of the per-key totals. -/
theorem buildGroup_maxDuration (items : List (Variant × Nat)) :
    (buildGroup items).maxDuration = maxTotalOf items := by
  induction items using List.reverseRecOn with
  | nil => simp [buildGroup, variantGroup.empty, maxTotalOf]
  | append_singleton items x ih =>
    rw [buildGroup_append]
    have hadd : ((buildGroup items).add x.1 x.2).maxDuration
        = max (buildGroup items).maxDuration (totalOf (variantKey x.1) (items ++ [x])) := by
      simp only [variantGroup.add]
      rw [buildGroup_durations_getD, totalOf_append, if_pos rfl]
    rw [hadd, ih]
    have hold_le_new : ∀ k, totalOf k items ≤ totalOf k (items ++ [x]) := by
      intro k
      rw [totalOf_append]
      omega
    have hnew_old : ∀ k, variantKey x.1 ≠ k → totalOf k (items ++ [x]) = totalOf k items := by
      intro k hk
      rw [totalOf_append, if_neg hk]
      omega
    apply le_antisymm
    · apply max_le
      · apply foldr_max_le
        intro a ha
        rcases List.mem_map.mp ha with ⟨it, hit, rfl⟩
        calc totalOf (variantKey it.1) items
            ≤ totalOf (variantKey it.1) (items ++ [x]) := hold_le_new _
          _ ≤ maxTotalOf (items ++ [x]) := by
              apply le_foldr_max
              exact List.mem_map.mpr ⟨it, by simp [hit], rfl⟩
      · apply le_foldr_max
        exact List.mem_map.mpr ⟨x, by simp, rfl⟩
    · apply foldr_max_le
      intro a ha
      rcases List.mem_map.mp ha with ⟨it, hit, rfl⟩
      rcases List.mem_append.mp hit with h1 | h1
      · by_cases hk : variantKey x.1 = variantKey it.1
        · rw [← hk]
          exact le_max_right _ _
        · rw [hnew_old _ hk]
          apply le_max_of_le_left
          apply le_foldr_max
          exact List.mem_map.mpr ⟨it, h1, rfl⟩
      · simp only [List.mem_singleton] at h1
        subst h1
        exact le_max_right _ _

/-! ### Lemmas on mergeOne and variantGroup.merge -/

/-- Folding a group preserves every field other than bandwidth, identifier
and the explicit info lists. -/
theorem mergeOne_fields (v0 : Variant) (rest : List Variant) :
    (mergeOne v0 rest).AddressingMode = v0.AddressingMode
    ∧ (mergeOne v0 rest).MimeType = v0.MimeType
    ∧ (mergeOne v0 rest).Codecs = v0.Codecs
    ∧ (mergeOne v0 rest).Width = v0.Width
    ∧ (mergeOne v0 rest).Height = v0.Height
    ∧ (mergeOne v0 rest).IndexedAddressingInfo = v0.IndexedAddressingInfo
    ∧ (mergeOne v0 rest).Fingerprint = v0.Fingerprint := by
  simp only [mergeOne]
  split <;> split <;> simp

/-- The merged bandwidth is the uint32 image of the truncated mean. -/
theorem mergeOne_Bandwidth (v0 : Variant) (rest : List Variant) :
    (mergeOne v0 rest).Bandwidth =
      (v0.Bandwidth + (rest.map (·.Bandwidth)).sum) / (1 + rest.length) % 2 ^ 32 := by
  simp only [mergeOne]
  split <;> split <;> simp

/-- The merged identifier: recomputed from the merged fields when the
bandwidth changed, kept otherwise. -/
theorem mergeOne_ID (v0 : Variant) (rest : List Variant) :
    ((mergeOne v0 rest).Bandwidth ≠ v0.Bandwidth →
      (mergeOne v0 rest).ID = computeID v0.MimeType v0.Codecs v0.Width v0.Height
        (mergeOne v0 rest).Bandwidth)
    ∧ ((mergeOne v0 rest).Bandwidth = v0.Bandwidth → (mergeOne v0 rest).ID = v0.ID) := by
  simp only [mergeOne]
  split <;> split <;> simp_all

/-- The merged explicit info under explicit addressing: the first member's
info with both lists extended by the remaining members' lists in order. -/
theorem mergeOne_explicit_info (v0 : Variant) (rest : List Variant)
    (hmode : v0.AddressingMode = "explicit") :
    (mergeOne v0 rest).ExplicitAddressingInfo = some
      { v0.ExplicitAddressingInfo.getD emptyExplicitInfo with
        URLs := (v0.ExplicitAddressingInfo.getD emptyExplicitInfo).URLs ++
          (rest.map (fun v => (v.ExplicitAddressingInfo.getD emptyExplicitInfo).URLs)).flatten,
        SegmentDurations :=
          (v0.ExplicitAddressingInfo.getD emptyExplicitInfo).SegmentDurations ++
          (rest.map (fun v =>
            (v.ExplicitAddressingInfo.getD emptyExplicitInfo).SegmentDurations)).flatten } := by
  simp only [mergeOne, if_pos hmode]
  split <;> simp

/-- Outside explicit addressing the explicit info pointer is carried over
unchanged. -/
theorem mergeOne_nonexplicit_info (v0 : Variant) (rest : List Variant)
    (hmode : ¬ v0.AddressingMode = "explicit") :
    (mergeOne v0 rest).ExplicitAddressingInfo = v0.ExplicitAddressingInfo := by
  simp only [mergeOne, if_neg hmode]
  split <;> simp

/-- Folding a group preserves the grouping key. -/
theorem variantKey_mergeOne (v0 : Variant) (rest : List Variant) :
    variantKey (mergeOne v0 rest) = variantKey v0 := by
  obtain ⟨hm, _, _, _, _, hidx, _⟩ := mergeOne_fields v0 rest
  by_cases hmode : v0.AddressingMode = "explicit"
  · have hinfo := mergeOne_explicit_info v0 rest hmode
    simp only [variantKey, hm, hmode, hinfo]
    cases v0.ExplicitAddressingInfo <;> simp [emptyExplicitInfo]
  · have hinfo := mergeOne_nonexplicit_info v0 rest hmode
    simp only [variantKey, hm, hinfo, hidx]

/-- Every merged variant arises from one stored group: its entry, the head
and tail of its member list, and the survival condition. -/
theorem merge_mem (vg : variantGroup) (w : Variant) (hw : w ∈ vg.merge) :
    ∃ kv ∈ vg.variants, ∃ v0 rest, kv.2 = v0 :: rest
      ∧ ¬ (assocGetD kv.1 0 vg.durations < vg.maxDuration)
      ∧ w = mergeOne v0 rest := by
  rcases List.mem_filterMap.mp hw with ⟨kv, hkv, hres⟩
  split at hres
  · exact Option.noConfusion hres
  next hdur =>
    split at hres
    · exact Option.noConfusion hres
    next v0 rest hvs =>
      exact ⟨kv, hkv, v0, rest, hvs, hdur, (Option.some.injEq .. ▸ hres).symm⟩

/-- Members collected under a key all carry that key. -/
theorem membersOf_key (k : String) (items : List (Variant × Nat)) :
    ∀ v ∈ membersOf k items, variantKey v = k := by
  intro v hv
  rcases List.mem_map.mp hv with ⟨it, hit, rfl⟩
  have := List.mem_filter.mp hit
  simpa using this.2

/-- An added item appears among the members of its key. -/
theorem mem_membersOf (k : String) (items : List (Variant × Nat)) (it : Variant × Nat)
    (hit : it ∈ items) (hk : variantKey it.1 = k) : it.1 ∈ membersOf k items :=
  List.mem_map.mpr ⟨it, List.mem_filter.mpr ⟨hit, by simp [hk]⟩, rfl⟩

/-- A member under a key is the variant of some added item. -/
theorem membersOf_src (k : String) (items : List (Variant × Nat)) :
    ∀ v ∈ membersOf k items, ∃ it ∈ items, it.1 = v := by
  intro v hv
  rcases List.mem_map.mp hv with ⟨it, hit, rfl⟩
  exact ⟨it, (List.mem_filter.mp hit).1, rfl⟩

/-- The stored member lists of a built group are exactly the members of the
entry key. -/
theorem buildGroup_entry (items : List (Variant × Nat)) (kv : String × List Variant)
    (hkv : kv ∈ (buildGroup items).variants) : kv.2 = membersOf kv.1 items := by
  have h := assocGetD_of_mem kv.1 [] (buildGroup items).variants (buildGroup_keys_nodup items)
    (by simpa using hkv)
  rw [← h, buildGroup_variants_getD]

/-- The head of a stored group carries the entry key. -/
theorem buildGroup_head_key (items : List (Variant × Nat)) (kv : String × List Variant)
    (hkv : kv ∈ (buildGroup items).variants) (v0 : Variant) (rest : List Variant)
    (hvs : kv.2 = v0 :: rest) : variantKey v0 = kv.1 := by
  have hm := buildGroup_entry items kv hkv
  apply membersOf_key kv.1 items
  rw [← hm, hvs]
  simp

/-- The merge of a group list counts zero variants under a key that is
discarded or absent. -/
theorem countP_merge_zero (durs : List (String × Nat)) (maxd : Nat)
    (l : List (String × List Variant))
    (hkeys : ∀ kv ∈ l, ∀ v0 rest, kv.2 = v0 :: rest → variantKey v0 = kv.1)
    (k : String)
    (h : assocGetD k 0 durs < maxd ∨ k ∉ l.map (·.1)) :
    (l.filterMap (fun kv =>
        if assocGetD kv.1 0 durs < maxd then none
        else match kv.2 with
          | [] => none
          | v0 :: rest => some (mergeOne v0 rest))).countP (fun w => variantKey w == k) = 0 := by
  rw [List.countP_eq_zero]
  intro w hw
  rcases List.mem_filterMap.mp hw with ⟨kv, hkv, hres⟩
  split at hres
  · exact Option.noConfusion hres
  next hdur =>
    split at hres
    · exact Option.noConfusion hres
    next v0 rest hvs =>
      have hw1 : w = mergeOne v0 rest := (Option.some.injEq .. ▸ hres).symm
      have hkey : variantKey w = kv.1 := by
        rw [hw1, variantKey_mergeOne, hkeys kv hkv v0 rest hvs]
      simp only [beq_iff_eq, hkey]
      intro he
      rcases h with h | h
      · rw [he] at hdur
        exact hdur h
      · exact h (List.mem_map.mpr ⟨kv, hkv, he⟩)

/-- The merge of a group list counts exactly one variant under a surviving,
present, nonempty key. -/
theorem countP_merge_one (durs : List (String × Nat)) (maxd : Nat) :
    ∀ (l : List (String × List Variant)),
      (∀ kv ∈ l, ∀ v0 rest, kv.2 = v0 :: rest → variantKey v0 = kv.1) →
      ((l.map (·.1)).Nodup) →
      ∀ k, ¬ (assocGetD k 0 durs < maxd) → k ∈ l.map (·.1) → assocGetD k [] l ≠ [] →
      (l.filterMap (fun kv =>
          if assocGetD kv.1 0 durs < maxd then none
          else match kv.2 with
            | [] => none
            | v0 :: rest => some (mergeOne v0 rest))).countP (fun w => variantKey w == k) = 1
  | [], _, _, k, _, hmem, _ => by simp at hmem
  | kv :: l1, hkeys, hnd, k, hsurv, hmem, hne => by
    have hkeys1 : ∀ kv1 ∈ l1, ∀ v0 rest, kv1.2 = v0 :: rest → variantKey v0 = kv1.1 :=
      fun kv1 h1 => hkeys kv1 (List.mem_cons_of_mem _ h1)
    have hnd1 : (l1.map (·.1)).Nodup := (List.nodup_cons.mp (by simpa using hnd)).2
    by_cases hk : kv.1 = k
    · have hknotin : k ∉ l1.map (·.1) := by
        rw [← hk]
        exact (List.nodup_cons.mp (by simpa using hnd)).1
      have hlook : assocGetD k [] (kv :: l1) = kv.2 := by
        simp [assocGetD, hk]
      rw [hlook] at hne
      cases hvs : kv.2 with
      | nil => exact absurd hvs hne
      | cons v0 rest =>
        have hzero := countP_merge_zero durs maxd l1 hkeys1 k (Or.inr hknotin)
        have hsurv1 : ¬ assocGetD kv.1 0 durs < maxd := by
          rw [hk]
          exact hsurv
        simp only [List.filterMap_cons, if_neg hsurv1, hvs]
        simp only [List.countP_cons, hzero]
        have hkeyw : variantKey (mergeOne v0 rest) = k := by
          rw [variantKey_mergeOne, hkeys kv (by simp) v0 rest hvs, hk]
        simp [hkeyw]
    · have hmem1 : k ∈ l1.map (·.1) := by
        rcases List.mem_map.mp hmem with ⟨kv1, hkv1, hkk⟩
        rcases List.mem_cons.mp hkv1 with h1 | h1
        · rw [h1] at hkk
          exact absurd hkk hk
        · exact List.mem_map.mpr ⟨kv1, h1, hkk⟩
      have hlook : assocGetD k [] (kv :: l1) = assocGetD k [] l1 := by
        simp [assocGetD, hk]
      rw [hlook] at hne
      have ih := countP_merge_one durs maxd l1 hkeys1 hnd1 k hsurv hmem1 hne
      by_cases hdur : assocGetD kv.1 0 durs < maxd
      · simp only [List.filterMap_cons, if_pos hdur]
        exact ih
      · cases hvs : kv.2 with
        | nil =>
          simp only [List.filterMap_cons, if_neg hdur, hvs]
          exact ih
        | cons v0 rest =>
          simp only [List.filterMap_cons, if_neg hdur, hvs]
          rw [List.countP_cons]
          have hkeyw : variantKey (mergeOne v0 rest) = kv.1 := by
            rw [variantKey_mergeOne, hkeys kv (by simp) v0 rest hvs]
          simp [ih, hkeyw, hk]

/-- C5: in the multi-period merge, a group whose total duration is strictly
below the largest total across groups contributes no merged variant, and a
group whose total equals that largest total contributes exactly one. -/
theorem C5_merge_keeps_longest_groups (items : List (Variant × Nat)) (k : String)
    (hmem : ∃ it ∈ items, variantKey it.1 = k) :
    (totalOf k items < maxTotalOf items →
      (buildGroup items).merge.countP (fun w => variantKey w == k) = 0)
    ∧ (totalOf k items = maxTotalOf items →
      (buildGroup items).merge.countP (fun w => variantKey w == k) = 1) := by
  have hkeys : ∀ kv ∈ (buildGroup items).variants, ∀ v0 rest,
      kv.2 = v0 :: rest → variantKey v0 = kv.1 :=
    fun kv hkv => buildGroup_head_key items kv hkv
  constructor
  · intro hlt
    apply countP_merge_zero _ _ _ hkeys
    left
    rw [buildGroup_durations_getD, buildGroup_maxDuration]
    exact hlt
  · intro heq
    apply countP_merge_one _ _ _ hkeys (buildGroup_keys_nodup items)
    · rw [buildGroup_durations_getD, buildGroup_maxDuration, heq]
      omega
    · exact (buildGroup_keys_mem items k).mpr hmem
    · rw [buildGroup_variants_getD]
      rcases hmem with ⟨it, hit, hk⟩
      have := mem_membersOf k items it hit hk
      intro hemp
      rw [hemp] at this
      simp at this

/-- Sum of a list bounded elementwise. -/
theorem list_sum_le (l : List Nat) (n : Nat) (h : ∀ x ∈ l, x ≤ n) : l.sum ≤ l.length * n := by
  induction l with
  | nil => simp
  | cons a rest ih =>
    simp only [List.sum_cons, List.length_cons]
    have h1 := h a (by simp)
    have h2 := ih fun x hx => h x (by simp [hx])
    calc a + rest.sum ≤ n + rest.length * n := by omega
      _ = (rest.length + 1) * n := by ring

/-- The default head of a nonempty list is a member. -/
theorem headD_mem (l : List α) (d : α) (h : l ≠ []) : l.headD d ∈ l := by
  cases l with
  | nil => exact absurd rfl h
  | cons a rest => simp

/-- C4: every merged variant comes from one group of added per-period
variants; its bandwidth is the truncated integer mean of the group members'
bandwidths, its identifier is recomputed from the five (merged) identity
fields whenever the bandwidth changed, and is kept otherwise. -/
theorem C4_merge_bandwidth_mean (items : List (Variant × Nat)) (w : Variant)
    (hw : w ∈ (buildGroup items).merge)
    (hbw : ∀ it ∈ items, it.1.Bandwidth ≤ 2 ^ 32 - 1) :
    ∃ k v0 rest, membersOf k items = v0 :: rest
      ∧ w = mergeOne v0 rest
      ∧ w.Bandwidth = ((v0 :: rest).map (·.Bandwidth)).sum / (v0 :: rest).length
      ∧ (w.Bandwidth ≠ v0.Bandwidth →
          w.ID = computeID w.MimeType w.Codecs w.Width w.Height w.Bandwidth)
      ∧ (w.Bandwidth = v0.Bandwidth → w.ID = v0.ID) := by
  obtain ⟨kv, hkv, v0, rest, hvs, hdur, hwm⟩ := merge_mem _ w hw
  have hentry := buildGroup_entry items kv hkv
  subst hwm
  have hmembers : ∀ v ∈ v0 :: rest, v.Bandwidth ≤ 2 ^ 32 - 1 := by
    intro v hv
    have hvm : v ∈ membersOf kv.1 items := by
      rw [← hentry, hvs]
      exact hv
    obtain ⟨it, hit, hiteq⟩ := membersOf_src kv.1 items v hvm
    rw [← hiteq]
    exact hbw it hit
  refine ⟨kv.1, v0, rest, by rw [← hentry, hvs], rfl, ?_, ?_, ?_⟩
  · rw [mergeOne_Bandwidth]
    simp only [List.map_cons, List.sum_cons, List.length_cons]
    rw [Nat.add_comm 1 rest.length]
    apply Nat.mod_eq_of_lt
    have hsum : v0.Bandwidth + (rest.map (·.Bandwidth)).sum ≤ (rest.length + 1) * (2 ^ 32 - 1) := by
      have := list_sum_le ((v0 :: rest).map (·.Bandwidth)) (2 ^ 32 - 1) (by
        intro x hx
        rcases List.mem_map.mp hx with ⟨v, hv, rfl⟩
        exact hmembers v hv)
      simpa using this
    have hdiv : (v0.Bandwidth + (rest.map (fun v => v.Bandwidth)).sum) / (rest.length + 1) ≤
        ((rest.length + 1) * (2 ^ 32 - 1)) / (rest.length + 1) :=
      Nat.div_le_div_right hsum
    rw [Nat.mul_div_cancel_left _ (show 0 < rest.length + 1 by omega)] at hdiv
    omega
  · intro hne
    obtain ⟨h1, _⟩ := mergeOne_ID v0 rest
    obtain ⟨_, hmime, hcod, hwid, hhei, _, _⟩ := mergeOne_fields v0 rest
    rw [h1 hne, hmime, hcod, hwid, hhei]
  · exact (mergeOne_ID v0 rest).2

/-- C10: for a group whose explicit-addressing members each have URL and
duration lists of equal length, the merged variant has equal-length lists:
both lists are the pairwise concatenations of the members' lists in member
order. -/
theorem C10_merge_preserves_lengths (v0 : Variant) (rest : List Variant)
    (hmode : v0.AddressingMode = "explicit")
    (hall : ∀ v ∈ v0 :: rest,
      (v.ExplicitAddressingInfo.getD emptyExplicitInfo).URLs.length =
      (v.ExplicitAddressingInfo.getD emptyExplicitInfo).SegmentDurations.length) :
    ∃ info, (mergeOne v0 rest).ExplicitAddressingInfo = some info
      ∧ info.URLs.length = info.SegmentDurations.length
      ∧ info.URLs = ((v0 :: rest).map
          (fun v => (v.ExplicitAddressingInfo.getD emptyExplicitInfo).URLs)).flatten
      ∧ info.SegmentDurations = ((v0 :: rest).map
          (fun v => (v.ExplicitAddressingInfo.getD emptyExplicitInfo).SegmentDurations)).flatten := by
  refine ⟨_, mergeOne_explicit_info v0 rest hmode, ?_, by simp, by simp⟩
  simp only [List.length_append, List.length_flatten, List.map_map]
  have h0 := hall v0 (by simp)
  have htail : ((rest.map
        (fun v => (v.ExplicitAddressingInfo.getD emptyExplicitInfo).URLs)).map List.length).sum
      = ((rest.map
        (fun v => (v.ExplicitAddressingInfo.getD emptyExplicitInfo).SegmentDurations)).map
          List.length).sum := by
    rw [List.map_map, List.map_map]
    congr 1
    apply List.map_congr_left
    intro v hv
    exact hall v (by simp [hv])
  rw [List.map_map, List.map_map] at htail
  omega

/-- A 1280x720 avc1 variant at bandwidth 1000, keyed by a shared template. -/
def vC4a : Variant :=
  { ID := computeID "video/mp4" "avc1.64001f" 1280 720 1000,
    MimeType := "video/mp4", Codecs := "avc1.64001f", Width := 1280, Height := 720,
    Bandwidth := 1000, AddressingMode := "explicit",
    ExplicitAddressingInfo := some { TemplateURL := "https://a.example/t" } }

/-- The same rendition in a second period at bandwidth 3000. -/
def vC4b : Variant :=
  { vC4a with Bandwidth := 3000, ID := computeID "video/mp4" "avc1.64001f" 1280 720 3000 }

/-- Two periods of the same rendition, bandwidths 1000 and 3000. -/
def itemsC4 : List (Variant × Nat) := [(vC4a, 10), (vC4b, 10)]

/-- The single variant surviving the merge of itemsC4. -/
def mergedC4 : Variant := ((buildGroup itemsC4).merge).headD {}

/-- C4 witness: merging the two periods with bandwidths 1000 and 3000 yields
bandwidth 2000 with the identifier recomputed over the merged fields. -/
theorem C4_witness :
    (∃ k v0 rest, membersOf k itemsC4 = v0 :: rest
      ∧ mergedC4 = mergeOne v0 rest
      ∧ mergedC4.Bandwidth = ((v0 :: rest).map (·.Bandwidth)).sum / (v0 :: rest).length
      ∧ (mergedC4.Bandwidth ≠ v0.Bandwidth →
          mergedC4.ID = computeID mergedC4.MimeType mergedC4.Codecs mergedC4.Width
            mergedC4.Height mergedC4.Bandwidth)
      ∧ (mergedC4.Bandwidth = v0.Bandwidth → mergedC4.ID = v0.ID))
    ∧ mergedC4.Bandwidth = 2000
    ∧ mergedC4.ID = computeID "video/mp4" "avc1.64001f" 1280 720 2000 :=
  ⟨C4_merge_bandwidth_mean itemsC4 mergedC4 (headD_mem _ _ (by decide)) (by decide),
   by decide, by decide⟩

/-- A rendition keyed under template a, present for the full duration. -/
def vC5a : Variant :=
  { AddressingMode := "explicit", Bandwidth := 2000,
    ExplicitAddressingInfo := some { TemplateURL := "https://a.example/t" } }

/-- A rendition keyed under template b, present for a shorter duration. -/
def vC5b : Variant :=
  { AddressingMode := "explicit", Bandwidth := 6000,
    ExplicitAddressingInfo := some { TemplateURL := "https://b.example/t" } }

/-- One long group (total 100) and one short group (total 50). -/
def itemsC5 : List (Variant × Nat) := [(vC5a, 100), (vC5b, 50)]

/-- C5 witness: the shorter group contributes nothing and the longest group
contributes exactly one merged variant. -/
theorem C5_witness :
    (buildGroup itemsC5).merge.countP (fun w => variantKey w == "https://b.example/t") = 0
    ∧ (buildGroup itemsC5).merge.countP (fun w => variantKey w == "https://a.example/t") = 1 :=
  ⟨(C5_merge_keeps_longest_groups itemsC5 "https://b.example/t"
      ⟨(vC5b, 50), by decide, by decide⟩).1 (by decide),
   (C5_merge_keeps_longest_groups itemsC5 "https://a.example/t"
      ⟨(vC5a, 100), by decide, by decide⟩).2 (by decide)⟩

/-- Explicit info with one URL and one duration. -/
def infoC10a : ExplicitAddressingInfo :=
  { TemplateURL := "https://a.example/t", URLs := ["https://a.example/1.m4s"],
    SegmentDurations := [1000], Timescale := 1000 }

/-- Explicit info of a second period with two URLs and two durations. -/
def infoC10b : ExplicitAddressingInfo :=
  { TemplateURL := "https://a.example/t",
    URLs := ["https://a.example/2.m4s", "https://a.example/3.m4s"],
    SegmentDurations := [1000, 500], Timescale := 1000 }

/-- An explicit variant with one URL and one duration. -/
def vC10a : Variant :=
  { AddressingMode := "explicit", ExplicitAddressingInfo := some infoC10a }

/-- A second period of the same rendition with two URLs and two durations. -/
def vC10b : Variant :=
  { AddressingMode := "explicit", ExplicitAddressingInfo := some infoC10b }

/-- C10 witness: the merge of the two explicit members concatenates both
lists pairwise and keeps them of equal length. -/
theorem C10_witness :
    ∃ info, (mergeOne vC10a [vC10b]).ExplicitAddressingInfo = some info
      ∧ info.URLs.length = info.SegmentDurations.length
      ∧ info.URLs = (([vC10a, vC10b]).map
          (fun v => (v.ExplicitAddressingInfo.getD emptyExplicitInfo).URLs)).flatten
      ∧ info.SegmentDurations = (([vC10a, vC10b]).map
          (fun v => (v.ExplicitAddressingInfo.getD emptyExplicitInfo).SegmentDurations)).flatten :=
  C10_merge_preserves_lengths vC10a [vC10b] (by decide) (by decide)

/-! ### Lemmas on the orchestrator deduplication -/

/-- The seen-map fold: every kept variant's ID is marked, the kept list has
pairwise-distinct IDs, and every kept variant comes from the accumulator or
the input. -/
theorem dedup_fold_main :
    ∀ (vs : List Variant) (acc : List Variant × List String),
      (∀ v ∈ acc.1, v.ID ∈ acc.2) →
      acc.1.Pairwise (fun a b => a.ID ≠ b.ID) →
      ((vs.foldl dedupStep acc).1.Pairwise (fun a b => a.ID ≠ b.ID)
        ∧ ∀ v ∈ (vs.foldl dedupStep acc).1, v ∈ acc.1 ∨ v ∈ vs)
  | [], acc, hids, hpw => by
    exact ⟨hpw, fun v hv => Or.inl hv⟩
  | v :: vs, acc, hids, hpw => by
    simp only [List.foldl_cons]
    by_cases hc : acc.2.contains v.ID
    · simp only [dedupStep, if_pos hc]
      obtain ⟨h1, h2⟩ := dedup_fold_main vs acc hids hpw
      refine ⟨h1, ?_⟩
      intro w hw
      rcases h2 w hw with h | h
      · exact Or.inl h
      · exact Or.inr (List.mem_cons_of_mem _ h)
    · simp only [dedupStep, if_neg hc]
      have hnotin : v.ID ∉ acc.2 := by
        intro hmem
        exact hc (List.contains_iff_exists_mem_beq .. |>.mpr ⟨v.ID, hmem, by simp⟩)
      have hids1 : ∀ w ∈ acc.1 ++ [v], w.ID ∈ v.ID :: acc.2 := by
        intro w hw
        rcases List.mem_append.mp hw with h | h
        · exact List.mem_cons_of_mem _ (hids w h)
        · simp only [List.mem_singleton] at h
          rw [h]
          simp
      have hpw1 : (acc.1 ++ [v]).Pairwise (fun a b => a.ID ≠ b.ID) := by
        rw [List.pairwise_append]
        refine ⟨hpw, List.pairwise_singleton _ _, ?_⟩
        intro a ha b hb
        simp only [List.mem_singleton] at hb
        rw [hb]
        intro he
        exact hnotin (he ▸ hids a ha)
      obtain ⟨h1, h2⟩ := dedup_fold_main vs (acc.1 ++ [v], v.ID :: acc.2) hids1 hpw1
      refine ⟨h1, ?_⟩
      intro w hw
      rcases h2 w hw with h | h
      · rcases List.mem_append.mp h with h3 | h3
        · exact Or.inl h3
        · simp only [List.mem_singleton] at h3
          exact Or.inr (h3 ▸ List.mem_cons_self _ _)
      · exact Or.inr (List.mem_cons_of_mem _ h)

/-- A list with pairwise-distinct IDs counts at most one variant per ID. -/
theorem countP_le_one_of_pairwise (l : List Variant)
    (h : l.Pairwise (fun a b => a.ID ≠ b.ID)) (s : String) :
    l.countP (fun v => v.ID == s) ≤ 1 := by
  induction l with
  | nil => simp
  | cons a rest ih =>
    rw [List.countP_cons]
    obtain ⟨hhead, htail⟩ := List.pairwise_cons.mp h
    by_cases ha : a.ID = s
    · have hzero : rest.countP (fun v => v.ID == s) = 0 := by
        rw [List.countP_eq_zero]
        intro v hv
        simp only [beq_iff_eq]
        intro he
        exact (hhead v hv) (by rw [ha, he])
      simp [hzero, ha]
    · have := ih htail
      simp only [beq_iff_eq, ha]
      simp
      omega

/-- C9: the orchestrator keeps at most one variant per distinct ID from the
extracted set, every kept variant is one of the extracted ones, and the
fingerprinted variants attached to the video — in any completion order —
have pairwise-distinct identifiers. -/
theorem C9_no_duplicate_ids (variants : List Variant) (fpr : Variant → Fingerprint)
    (l : List Variant)
    (hperm : l.Perm ((dedupVariants variants).map (fun v => attachFingerprint v (fpr v)))) :
    l.Pairwise (fun a b => a.ID ≠ b.ID)
    ∧ (∀ v ∈ dedupVariants variants, v ∈ variants)
    ∧ ∀ s : String, (dedupVariants variants).countP (fun v => v.ID == s) ≤ 1 := by
  obtain ⟨hpw, hmem⟩ := dedup_fold_main variants ([], []) (by simp) (by simp)
  refine ⟨?_, ?_, ?_⟩
  · have hmap : ((dedupVariants variants).map
        (fun v => attachFingerprint v (fpr v))).Pairwise (fun a b => a.ID ≠ b.ID) := by
      rw [List.pairwise_map]
      exact hpw
    exact (hperm.pairwise_iff (fun h he => h he.symm)).mpr hmap
  · intro v hv
    rcases hmem v hv with h | h
    · simp at h
    · exact h
  · intro s
    exact countP_le_one_of_pairwise _ hpw s

/-- A variant with ID a. -/
def vC9a : Variant := { ID := "a", Bandwidth := 1 }

/-- A variant with ID b. -/
def vC9b : Variant := { ID := "b", Bandwidth := 2 }

/-- A duplicate of ID a with different content. -/
def vC9c : Variant := { ID := "a", Bandwidth := 3 }

/-- A concrete fingerprint for the C9 witness. -/
def fpC9 : Fingerprint := { SegmentSizes := [1], SegmentDurations := [1], Timescale := 1 }

/-- C9 witness: the theorem applied to a concrete list with a duplicated ID,
using the identity completion order. -/
theorem C9_witness :
    ((dedupVariants [vC9a, vC9b, vC9c]).map
        (fun v => attachFingerprint v fpC9)).Pairwise (fun a b => a.ID ≠ b.ID)
    ∧ (∀ v ∈ dedupVariants [vC9a, vC9b, vC9c], v ∈ [vC9a, vC9b, vC9c])
    ∧ ∀ s : String, (dedupVariants [vC9a, vC9b, vC9c]).countP (fun v => v.ID == s) ≤ 1 :=
  C9_no_duplicate_ids [vC9a, vC9b, vC9c] (fun _ => fpC9) _ (List.Perm.refl _)

/-! ### Lemmas on the HEAD retry loop -/

/-- Structural bounds on one retry loop run: at most fuel + 1 attempts, one
sleep between consecutive attempts, every sleep below 1000 ms. -/
theorem headRetry_bounds (head : String → Nat → Except String Int) (cancelled : Nat → Bool)
    (rndSrv rndSleep : Nat → Nat) (servers : List String) :
    ∀ (fuel : Nat) (u : String) (tryN : Nat),
      (headRetryLoop head cancelled rndSrv rndSleep servers fuel u tryN).attempts ≤ fuel + 1
      ∧ (headRetryLoop head cancelled rndSrv rndSleep servers fuel u tryN).sleeps.length + 1 =
          (headRetryLoop head cancelled rndSrv rndSleep servers fuel u tryN).attempts
      ∧ ∀ s ∈ (headRetryLoop head cancelled rndSrv rndSleep servers fuel u tryN).sleeps, s < 1000
  | 0, u, tryN => by
    rw [headRetryLoop]
    by_cases hc : cancelled tryN = true
    · simp [hc]
    · rw [if_neg hc]
      cases hr : head (headRetrySubst rndSrv servers u tryN) tryN with
      | ok l => simp [apply_ite]
      | error e => simp [apply_ite]
  | fuel1 + 1, u, tryN => by
    obtain ⟨ih1, ih2, ih3⟩ := headRetry_bounds head cancelled rndSrv rndSleep servers fuel1
      (headRetrySubst rndSrv servers u tryN) (tryN + 1)
    by_cases hc : cancelled tryN = true
    · rw [headRetryLoop]
      simp [hc]
    · cases hr : head (headRetrySubst rndSrv servers u tryN) tryN with
      | ok l =>
        rw [headRetryLoop]
        simp [hc, hr, apply_ite]
      | error e =>
        by_cases htry : tryN < 5
        · have heq : headRetryLoop head cancelled rndSrv rndSleep servers (fuel1 + 1) u tryN =
              { result := (headRetryLoop head cancelled rndSrv rndSleep servers fuel1
                  (headRetrySubst rndSrv servers u tryN) (tryN + 1)).result,
                attempts := 1 + (headRetryLoop head cancelled rndSrv rndSleep servers fuel1
                  (headRetrySubst rndSrv servers u tryN) (tryN + 1)).attempts,
                sleeps := (rndSleep tryN % 1000) ::
                  (headRetryLoop head cancelled rndSrv rndSleep servers fuel1
                    (headRetrySubst rndSrv servers u tryN) (tryN + 1)).sleeps } := by
            rw [headRetryLoop]
            simp [hc, hr, htry]
          rw [heq]
          refine ⟨?_, ?_, ?_⟩
          · show 1 + (headRetryLoop head cancelled rndSrv rndSleep servers fuel1
              (headRetrySubst rndSrv servers u tryN) (tryN + 1)).attempts ≤ fuel1 + 1 + 1
            omega
          · show ((rndSleep tryN % 1000) ::
                (headRetryLoop head cancelled rndSrv rndSleep servers fuel1
                  (headRetrySubst rndSrv servers u tryN) (tryN + 1)).sleeps).length + 1 =
              1 + (headRetryLoop head cancelled rndSrv rndSleep servers fuel1
                (headRetrySubst rndSrv servers u tryN) (tryN + 1)).attempts
            simp only [List.length_cons]
            omega
          · intro s hs
            replace hs : s ∈ (rndSleep tryN % 1000) ::
                (headRetryLoop head cancelled rndSrv rndSleep servers fuel1
                  (headRetrySubst rndSrv servers u tryN) (tryN + 1)).sleeps := hs
            rcases List.mem_cons.mp hs with h | h
            · rw [h]
              exact Nat.mod_lt _ (by omega)
            · exact ih3 s h
        · rw [headRetryLoop]
          simp [hc, hr, htry]

/-- When every attempt fails and the outer context is never cancelled, the
loop runs its full budget and surfaces an error. -/
theorem headRetry_all_fail (head : String → Nat → Except String Int) (cancelled : Nat → Bool)
    (hfail : ∀ u1 k, ∃ e, head u1 k = .error e) (hnc : ∀ k, cancelled k = false)
    (rndSrv rndSleep : Nat → Nat) (servers : List String) :
    ∀ (fuel : Nat) (u : String) (tryN : Nat), fuel + tryN = 5 →
      (headRetryLoop head cancelled rndSrv rndSleep servers fuel u tryN).attempts = fuel + 1
      ∧ ∃ e, (headRetryLoop head cancelled rndSrv rndSleep servers fuel u tryN).result = .error e
  | 0, u, tryN, hft => by
    rw [headRetryLoop]
    obtain ⟨e, he⟩ := hfail (headRetrySubst rndSrv servers u tryN) tryN
    have htry : ¬ tryN < 5 := by omega
    simp only [hnc tryN, Bool.false_eq_true, if_false, he, htry]
    exact ⟨trivial, _, rfl⟩
  | fuel1 + 1, u, tryN, hft => by
    obtain ⟨ih1, ih2⟩ := headRetry_all_fail head cancelled hfail hnc rndSrv rndSleep servers
      fuel1 (headRetrySubst rndSrv servers u tryN) (tryN + 1) (by omega)
    rw [headRetryLoop]
    obtain ⟨e, he⟩ := hfail (headRetrySubst rndSrv servers u tryN) tryN
    have htry : tryN < 5 := by omega
    simp only [hnc tryN, Bool.false_eq_true, if_false, he, htry, if_true]
    constructor
    · omega
    · exact ih2

/-- C2 (amended): the per-URL HEAD protocol makes at most 6 attempts in
total (one initial attempt plus up to 5 retries), sleeps a
rand.Intn(1000)-millisecond duration — always in [0, 1000) — between
consecutive attempts, and when every attempt fails without outer
cancellation it makes exactly 6 attempts and surfaces the error with no
further attempt. -/
theorem C2_retry_protocol (head : String → Nat → Except String Int) (cancelled : Nat → Bool)
    (rndSrv rndSleep : Nat → Nat) (servers : List String) (u : String) :
    ((headRetryLoop head cancelled rndSrv rndSleep servers 5 u 0).attempts ≤ 6
      ∧ (headRetryLoop head cancelled rndSrv rndSleep servers 5 u 0).sleeps.length + 1 =
          (headRetryLoop head cancelled rndSrv rndSleep servers 5 u 0).attempts
      ∧ ∀ s ∈ (headRetryLoop head cancelled rndSrv rndSleep servers 5 u 0).sleeps, s < 1000)
    ∧ ((∀ u1 k, ∃ e, head u1 k = .error e) → (∀ k, cancelled k = false) →
        (headRetryLoop head cancelled rndSrv rndSleep servers 5 u 0).attempts = 6
        ∧ ∃ e, (headRetryLoop head cancelled rndSrv rndSleep servers 5 u 0).result = .error e) := by
  constructor
  · exact headRetry_bounds head cancelled rndSrv rndSleep servers 5 u 0
  · intro hfail hnc
    exact headRetry_all_fail head cancelled hfail hnc rndSrv rndSleep servers 5 u 0 rfl

/-- C2 counterexample: with an always-failing HEAD oracle and no
cancellation, the loop performs 6 attempts — not at most 5 as claimed — and
only then surfaces the error. -/
theorem C2_counterexample :
    (headRetryLoop (fun _ _ => .error "boom") (fun _ => false) (fun _ => 0) (fun _ => 0)
        [] 5 "https://u.example/s" 0).attempts = 6
    ∧ ¬ ((headRetryLoop (fun _ _ => .error "boom") (fun _ => false) (fun _ => 0) (fun _ => 0)
        [] 5 "https://u.example/s" 0).attempts ≤ 5)
    ∧ (headRetryLoop (fun _ _ => .error "boom") (fun _ => false) (fun _ => 0) (fun _ => 0)
        [] 5 "https://u.example/s" 0).result = .error "fetch content length: boom" :=
  ⟨rfl, by decide, rfl⟩

/-- C2 witness: the amended protocol theorem applied to a concrete
always-failing oracle. -/
theorem C2_witness :
    ((headRetryLoop (fun _ _ => .error "boom") (fun _ => false) (fun _ => 0) (fun _ => 0)
        [] 5 "https://u.example/s" 0).attempts ≤ 6
      ∧ (headRetryLoop (fun _ _ => .error "boom") (fun _ => false) (fun _ => 0) (fun _ => 0)
          [] 5 "https://u.example/s" 0).sleeps.length + 1 =
        (headRetryLoop (fun _ _ => .error "boom") (fun _ => false) (fun _ => 0) (fun _ => 0)
          [] 5 "https://u.example/s" 0).attempts
      ∧ ∀ s ∈ (headRetryLoop (fun _ _ => .error "boom") (fun _ => false) (fun _ => 0)
          (fun _ => 0) [] 5 "https://u.example/s" 0).sleeps, s < 1000)
    ∧ (headRetryLoop (fun _ _ => .error "boom") (fun _ => false) (fun _ => 0) (fun _ => 0)
        [] 5 "https://u.example/s" 0).attempts = 6
    ∧ ∃ e, (headRetryLoop (fun _ _ => .error "boom") (fun _ => false) (fun _ => 0) (fun _ => 0)
        [] 5 "https://u.example/s" 0).result = .error e := by
  have h := C2_retry_protocol (fun _ _ => .error "boom") (fun _ => false) (fun _ => 0)
    (fun _ => 0) [] "https://u.example/s"
  exact ⟨h.1, h.2 (fun u1 k => ⟨"boom", rfl⟩) (fun k => rfl)⟩

/-- An accepted retry-loop result is within the uint32 bound. -/
theorem headRetry_ok_bound (head : String → Nat → Except String Int) (cancelled : Nat → Bool)
    (rndSrv rndSleep : Nat → Nat) (servers : List String) :
    ∀ (fuel : Nat) (u : String) (tryN : Nat) (l : Int),
      (headRetryLoop head cancelled rndSrv rndSleep servers fuel u tryN).result = .ok l →
      l ≤ (2 ^ 32 - 1 : Int)
  | 0, u, tryN, l, h => by
    rw [headRetryLoop] at h
    by_cases hc : cancelled tryN = true
    · simp [hc] at h
    · rw [if_neg hc] at h
      cases hr : head (headRetrySubst rndSrv servers u tryN) tryN with
      | ok l1 =>
        rw [hr] at h
        split at h
        next hl => exact Except.noConfusion hl
        next l2 hl =>
          injection hl with hl12
          subst hl12
          split at h
          next hcond => exact absurd h (by simp)
          next hcond =>
            have h2 : l1 = l := by simpa using h
            omega
      | error e =>
        rw [hr] at h
        by_cases htry : tryN < 5 <;> simp [htry] at h
  | fuel1 + 1, u, tryN, l, h => by
    rw [headRetryLoop] at h
    by_cases hc : cancelled tryN = true
    · simp [hc] at h
    · rw [if_neg hc] at h
      cases hr : head (headRetrySubst rndSrv servers u tryN) tryN with
      | ok l1 =>
        rw [hr] at h
        split at h
        next hl => exact Except.noConfusion hl
        next l2 hl =>
          injection hl with hl12
          subst hl12
          split at h
          next hcond => exact absurd h (by simp)
          next hcond =>
            have h2 : l1 = l := by simpa using h
            omega
      | error e =>
        rw [hr] at h
        by_cases htry : tryN < 5
        · simp only [htry, if_true] at h
          exact headRetry_ok_bound head cancelled rndSrv rndSleep servers fuel1
            (headRetrySubst rndSrv servers u tryN) (tryN + 1) l h
        · simp [htry] at h

/-- C7 (amended): a successful explicit fingerprint carries the variant's
duration list and timescale unchanged and one size slot per URL, filled at
the URL's manifest position with the uint32 image of the per-URL HEAD
result; the stored size equals the obtained Content-Length whenever that
length is nonnegative (a missing Content-Length is reported by the HTTP
client as -1 and is stored truncated as 2 ^ 32 - 1). -/
theorem C7_explicit_fingerprint_positions
    (head : Nat → String → Nat → Except String Int) (cancelled : Nat → Nat → Bool)
    (rndSrv rndSleep : Nat → Nat → Nat) (info : ExplicitAddressingInfo) (fp : Fingerprint)
    (h : fingerprintExplicit head cancelled rndSrv rndSleep info = .ok fp) :
    fp.SegmentDurations = info.SegmentDurations
    ∧ fp.Timescale = info.Timescale
    ∧ fp.SegmentSizes.length = info.URLs.length
    ∧ ∀ i, i < info.URLs.length →
        ∃ l, (headRetryLoop (head i) (cancelled i) (rndSrv i) (rndSleep i) info.Servers 5
            (info.URLs.getD i "") 0).result = .ok l
          ∧ l ≤ (2 ^ 32 - 1 : Int)
          ∧ fp.SegmentSizes[i]? = some (intToUInt32 l)
          ∧ (0 ≤ l → (intToUInt32 l : Int) = l) := by
  unfold fingerprintExplicit at h
  simp only [] at h
  split at h
  · exact Except.noConfusion h
  next hnone =>
    simp only [Except.ok.injEq] at h
    subst h
    refine ⟨rfl, rfl, by simp [explicitResults], ?_⟩
    intro i hi
    have hres : (explicitResults head cancelled rndSrv rndSleep info)[i]? =
        some (headRetryLoop (head i) (cancelled i) (rndSrv i) (rndSleep i) info.Servers 5
          (info.URLs.getD i "") 0).result := by
      simp [explicitResults, List.getElem?_map, List.getElem?_range, hi]
    have hmem : (headRetryLoop (head i) (cancelled i) (rndSrv i) (rndSleep i) info.Servers 5
        (info.URLs.getD i "") 0).result ∈ explicitResults head cancelled rndSrv rndSleep info :=
      List.getElem?_mem hres
    obtain ⟨l, hl⟩ : ∃ l, (headRetryLoop (head i) (cancelled i) (rndSrv i) (rndSleep i)
        info.Servers 5 (info.URLs.getD i "") 0).result = .ok l := by
      have hf := List.findSome?_eq_none_iff.mp hnone _ hmem
      cases hres2 : (headRetryLoop (head i) (cancelled i) (rndSrv i) (rndSleep i) info.Servers 5
          (info.URLs.getD i "") 0).result with
      | error e => rw [hres2] at hf; exact Option.noConfusion hf
      | ok l => exact ⟨l, rfl⟩
    refine ⟨l, hl, headRetry_ok_bound _ _ _ _ _ _ _ _ _ hl, ?_, ?_⟩
    · rw [List.getElem?_map, hres, hl]
      rfl
    · intro h0
      have hb := headRetry_ok_bound _ _ _ _ _ _ _ _ _ hl
      unfold intToUInt32
      rw [Int.emod_eq_of_lt h0 (by omega)]
      omega

/-- The explicit info used for the C7 witness and counterexample: one URL,
one duration, timescale 1000. -/
def infoC7 : ExplicitAddressingInfo :=
  { TemplateURL := "https://u.example/t", URLs := ["https://u.example/1.m4s"],
    Servers := [], SegmentDurations := [1000], Timescale := 1000 }

/-- C7 counterexample: a HEAD response without a Content-Length (the client
reports -1) makes the fingerprint succeed with stored size 4294967295, which
differs from the obtained length -1, refuting the claim that the stored size
always equals the obtained Content-Length. -/
theorem C7_counterexample :
    fingerprintExplicit (fun _ _ _ => .ok (-1)) (fun _ _ => false) (fun _ _ => 0)
        (fun _ _ => 0) infoC7 =
      .ok { SegmentSizes := [4294967295], SegmentDurations := [1000], Timescale := 1000 }
    ∧ ((4294967295 : Int) ≠ (-1 : Int)) :=
  ⟨rfl, by decide⟩

/-- C7 witness: the amended theorem applied to a concrete oracle returning
Content-Length 500. -/
theorem C7_witness :
    { SegmentSizes := [500], SegmentDurations := [1000],
        Timescale := 1000 : Fingerprint }.SegmentDurations = infoC7.SegmentDurations
    ∧ { SegmentSizes := [500], SegmentDurations := [1000],
        Timescale := 1000 : Fingerprint }.Timescale = infoC7.Timescale
    ∧ { SegmentSizes := [500], SegmentDurations := [1000],
        Timescale := 1000 : Fingerprint }.SegmentSizes.length = infoC7.URLs.length
    ∧ ∀ i, i < infoC7.URLs.length →
        ∃ l, (headRetryLoop ((fun _ _ _ => .ok 500) i) ((fun _ _ => false) i)
            ((fun _ _ => 0) i) ((fun _ _ => 0) i) infoC7.Servers 5
            (infoC7.URLs.getD i "") 0).result = .ok l
          ∧ l ≤ (2 ^ 32 - 1 : Int)
          ∧ { SegmentSizes := [500], SegmentDurations := [1000],
              Timescale := 1000 : Fingerprint }.SegmentSizes[i]? = some (intToUInt32 l)
          ∧ (0 ≤ l → (intToUInt32 l : Int) = l) :=
  C7_explicit_fingerprint_positions (fun _ _ _ => .ok 500) (fun _ _ => false)
    (fun _ _ => 0) (fun _ _ => 0) infoC7
    { SegmentSizes := [500], SegmentDurations := [1000], Timescale := 1000 } rfl

/-- A successful run of the HLS segment loop: the fingerprinted flag records
whether any processed segment (or the incoming state) carried a byte-range
length; the embedded fingerprint gains one (size, duration) pair per
byte-ranged segment and its timescale is set to 1000 at the first switch;
the explicit info gains one (resolved URL, duration) pair per unranged
segment, its other fields untouched. -/
theorem m3u8SegLoop_ok (u : String) :
    ∀ (segs : List MediaSegment) (st st' : M3U8SegState),
      m3u8SegLoop u segs st = .ok st' →
      st'.isIndexed = (st.isIndexed || segs.any (fun s => s.ByteRangeLength.isSome))
      ∧ st'.fp.SegmentSizes = st.fp.SegmentSizes ++
          segs.filterMap (fun s => s.ByteRangeLength.map (fun sz => sz % 2 ^ 32))
      ∧ st'.fp.SegmentDurations = st.fp.SegmentDurations ++
          (segs.filter (fun s => s.ByteRangeLength.isSome)).map
            (fun s => s.Duration / 1000000 % 2 ^ 32)
      ∧ st'.fp.Timescale =
          (if st.isIndexed = true then st.fp.Timescale
           else if segs.any (fun s => s.ByteRangeLength.isSome) = true then 1000
           else st.fp.Timescale)
      ∧ st'.info.URLs = st.info.URLs ++
          (segs.filter (fun s => s.ByteRangeLength.isNone)).map
            (fun s => resolveReference u s.URI)
      ∧ st'.info.SegmentDurations = st.info.SegmentDurations ++
          (segs.filter (fun s => s.ByteRangeLength.isNone)).map
            (fun s => s.Duration / 1000000 % 2 ^ 32)
      ∧ st'.info.Servers = st.info.Servers
      ∧ st'.info.Timescale = st.info.Timescale
      ∧ st'.info.TemplateURL = st.info.TemplateURL
  | [], st, st', h => by
    simp only [m3u8SegLoop, Except.ok.injEq] at h
    subst h
    simp
  | seg :: rest, st, st', h => by
    simp only [m3u8SegLoop] at h
    split at h
    · exact Except.noConfusion h
    next hdur =>
      split at h
      next size hside =>
        split at h
        next hsz => exact Except.noConfusion h
        next hsz =>
          obtain ⟨h1, h2, h3, h4, h5, h6, h7, h8, h9⟩ := m3u8SegLoop_ok u rest _ st' h
          refine ⟨?_, ?_, ?_, ?_, ?_, ?_, h7, h8, h9⟩
          · rw [h1]; simp [hside]
          · rw [h2]; cases hB : st.isIndexed <;> simp [hside, hB]
          · rw [h3]; cases hB : st.isIndexed <;> simp [hside, hB]
          · rw [h4]; cases hB : st.isIndexed <;> simp [hside, hB]
          · rw [h5]; simp [hside]
          · rw [h6]; simp [hside]
      next hside =>
        obtain ⟨h1, h2, h3, h4, h5, h6, h7, h8, h9⟩ := m3u8SegLoop_ok u rest _ st' h
        refine ⟨?_, ?_, ?_, ?_, ?_, ?_, h7, h8, h9⟩
        · rw [h1]; simp [hside]
        · rw [h2]; simp [hside]
        · rw [h3]; simp [hside]
        · rw [h4]; simp [hside]
        · rw [h5]; simp [hside]
        · rw [h6]; simp [hside]

/-- C6 (amended): a media playlist yields a fingerprinted variant exactly
when SOME segment (not necessarily the first) carries a byte-range length;
the embedded fingerprint then collects one (size, duration-ms) pair per
byte-ranged segment with timescale 1000, unranged segments contributing
nothing to it; otherwise the variant is explicit and collects one
(resolved URL, duration-ms) pair per segment with timescale 1000. -/
theorem C6_hls_addressing_modes
    (fetchPl : String → Except String Playlist) (url : String) (servers : List String)
    (v : MultivariantVariant) (segs : List MediaSegment) (w : Variant)
    (hpl : fetchPl (resolveReference url v.URI) = .ok (.media segs))
    (h : extractM3U8Variant fetchPl url servers v = .ok w) :
    (w.AddressingMode = "fingerprinted" ↔
      segs.any (fun s => s.ByteRangeLength.isSome) = true)
    ∧ (w.AddressingMode = "fingerprinted" →
        ∃ fp, w.Fingerprint = some fp
          ∧ fp.SegmentSizes =
              segs.filterMap (fun s => s.ByteRangeLength.map (fun sz => sz % 2 ^ 32))
          ∧ fp.SegmentDurations =
              (segs.filter (fun s => s.ByteRangeLength.isSome)).map
                (fun s => s.Duration / 1000000 % 2 ^ 32)
          ∧ fp.Timescale = 1000)
    ∧ (w.AddressingMode = "explicit" →
        ∃ inf, w.ExplicitAddressingInfo = some inf
          ∧ inf.URLs = segs.map (fun s =>
              resolveReference (resolveReference url v.URI) s.URI)
          ∧ inf.SegmentDurations = segs.map (fun s => s.Duration / 1000000 % 2 ^ 32)
          ∧ inf.Timescale = 1000
          ∧ inf.Servers = servers)
    ∧ (w.AddressingMode = "fingerprinted" ∨ w.AddressingMode = "explicit") := by
  unfold extractM3U8Variant at h
  simp only [] at h
  split at h
  · exact Except.noConfusion h
  next hres =>
    split at h
    · exact Except.noConfusion h
    next width hw =>
      split at h
      · exact Except.noConfusion h
      next height hh =>
        split at h
        · exact Except.noConfusion h
        next hbw =>
          split at h
          · exact Except.noConfusion h
          next codecs crest hcod =>
            rw [hpl] at h
            split at h
            next he => exact Except.noConfusion he
            next he => exact absurd he (by simp)
            next segs2 hmed =>
              injection hmed with hmed2
              injection hmed2 with hmed3
              subst hmed3
              split at h
              next he2 => exact Except.noConfusion h
              next st hst =>
                injection h with hlit
                subst hlit
                obtain ⟨h1, h2, h3, h4, h5, h6, h7, h8, h9⟩ :=
                  m3u8SegLoop_ok (resolveReference url v.URI) segs _ st hst
                simp only [Bool.false_or] at h1
                refine ⟨?_, ?_, ?_, ?_⟩
                · cases hB : st.isIndexed with
                  | false =>
                    rw [hB] at h1
                    simp [hB, ← h1]
                  | true =>
                    rw [hB] at h1
                    simp [hB, ← h1]
                · intro hmode
                  have hB : st.isIndexed = true := by
                    cases hB2 : st.isIndexed with
                    | true => rfl
                    | false => simp [hB2] at hmode
                  have hany : segs.any (fun s => s.ByteRangeLength.isSome) = true := by
                    rw [hB] at h1; exact h1.symm
                  refine ⟨st.fp, by simp [hB], by simpa using h2, by simpa using h3, ?_⟩
                  rw [h4]
                  simp [hany]
                · intro hmode
                  have hB : st.isIndexed = false := by
                    cases hB2 : st.isIndexed with
                    | false => rfl
                    | true => simp [hB2] at hmode
                  have hany : segs.any (fun s => s.ByteRangeLength.isSome) = false := by
                    rw [hB] at h1; exact h1.symm
                  have hfil : segs.filter (fun s => s.ByteRangeLength.isNone) = segs := by
                    rw [List.filter_eq_self]
                    intro s hs
                    have hns := List.any_eq_false.mp hany s hs
                    cases hbrl : s.ByteRangeLength with
                    | none => simp
                    | some x => rw [hbrl] at hns; simp at hns
                  refine ⟨st.info, by simp [hB], ?_, ?_, by simpa using h8,
                    by simpa using h7⟩
                  · rw [h5, hfil]
                    simp
                  · rw [h6, hfil]
                    simp
                · cases hB : st.isIndexed with
                  | true => exact Or.inl (by simp [hB])
                  | false => exact Or.inr (by simp [hB])

/-- The first HLS segment of the C6 scenario: two seconds, no byte range. -/
def segC6a : MediaSegment := { Duration := 2000000000, URI := "a.m4s" }

/-- The second HLS segment of the C6 scenario: three seconds, byte-range
length 700. -/
def segC6b : MediaSegment :=
  { Duration := 3000000000, URI := "b.m4s", ByteRangeLength := some 700 }

/-- The master-playlist entry of the C6 scenario. -/
def vC6 : MultivariantVariant :=
  { Bandwidth := 100, Codecs := ["avc1.64001f"], Resolution := "10x20", URI := "v.m3u8" }

/-- C6 counterexample: a playlist whose FIRST segment has no byte-range
length but whose second one does still yields a fingerprinted variant,
refuting the claim that the mode is decided by the first segment alone. -/
theorem C6_counterexample :
    (extractM3U8Variant (fun _ => .ok (.media [segC6a, segC6b]))
        "https://h.example/m.m3u8" [] vC6).map (fun w => w.AddressingMode) =
      .ok "fingerprinted"
    ∧ segC6a.ByteRangeLength = none :=
  ⟨rfl, rfl⟩

/-- The media-playlist oracle of the C6 witness: one unranged segment. -/
def fetchPlC6 : String → Except String Playlist := fun _ => .ok (.media [segC6a])

/-- The variant produced in the C6 witness run. -/
def wC6 : Variant :=
  (extractM3U8Variant fetchPlC6 "https://h.example/m.m3u8" ["s1"] vC6).toOption.getD {}

/-- C6 witness: the amended theorem applied to a concrete single-segment
unranged playlist, which yields an explicit variant. -/
theorem C6_witness :
    (wC6.AddressingMode = "fingerprinted" ↔
      [segC6a].any (fun s => s.ByteRangeLength.isSome) = true)
    ∧ (wC6.AddressingMode = "fingerprinted" →
        ∃ fp, wC6.Fingerprint = some fp
          ∧ fp.SegmentSizes =
              [segC6a].filterMap (fun s => s.ByteRangeLength.map (fun sz => sz % 2 ^ 32))
          ∧ fp.SegmentDurations =
              ([segC6a].filter (fun s => s.ByteRangeLength.isSome)).map
                (fun s => s.Duration / 1000000 % 2 ^ 32)
          ∧ fp.Timescale = 1000)
    ∧ (wC6.AddressingMode = "explicit" →
        ∃ inf, wC6.ExplicitAddressingInfo = some inf
          ∧ inf.URLs = [segC6a].map (fun s =>
              resolveReference (resolveReference "https://h.example/m.m3u8" vC6.URI) s.URI)
          ∧ inf.SegmentDurations = [segC6a].map (fun s => s.Duration / 1000000 % 2 ^ 32)
          ∧ inf.Timescale = 1000
          ∧ inf.Servers = ["s1"])
    ∧ (wC6.AddressingMode = "fingerprinted" ∨ wC6.AddressingMode = "explicit") :=
  C6_hls_addressing_modes fetchPlC6 "https://h.example/m.m3u8" ["s1"] vC6 [segC6a] wC6
    rfl rfl

/-- C1 (amended): every fingerprint the orchestrator attaches on the success
path is non-nil, and its size and duration arrays have equal length provided
the variant satisfies the extractor-established shape (an explicit info whose
URL and duration lists have equal length; an embedded fingerprint whose
lists have equal length). The stronger published invariants — length at
least 1 and strictly positive timescale — do not hold of the code. -/
theorem C1_attached_fingerprint_invariants
    (fetchSidx : String → String → Except String Sidx)
    (head : Nat → String → Nat → Except String Int) (cancelled : Nat → Nat → Bool)
    (rndSrv rndSleep : Nat → Nat → Nat) (v : Variant) (fp : Fingerprint)
    (hinfo : ∀ info, v.ExplicitAddressingInfo = some info →
      info.URLs.length = info.SegmentDurations.length)
    (hemb : ∀ fp0, v.Fingerprint = some fp0 →
      fp0.SegmentSizes.length = fp0.SegmentDurations.length)
    (h : FingerprintVariant fetchSidx head cancelled rndSrv rndSleep v = .ok fp) :
    (attachFingerprint v fp).Fingerprint = some fp
    ∧ fp.SegmentSizes.length = fp.SegmentDurations.length := by
  refine ⟨rfl, ?_⟩
  unfold FingerprintVariant at h
  split at h
  · split at h
    next info hinfo2 =>
      unfold fingerprintIndexed at h
      split at h
      · unfold fingerprintIndexedMP4 at h
        simp only [] at h
        split at h
        · exact Except.noConfusion h
        next sidx hsidx =>
          simp only [Except.ok.injEq] at h
          subst h
          simp
      · split at h
        · exact Except.noConfusion h
        · exact Except.noConfusion h
    next => exact Except.noConfusion h
  · split at h
    · split at h
      next info hinfo2 =>
        unfold fingerprintExplicit at h
        simp only [] at h
        split at h
        · exact Except.noConfusion h
        next hnone =>
          simp only [Except.ok.injEq] at h
          subst h
          simp [explicitResults, hinfo info hinfo2]
      next => exact Except.noConfusion h
    · split at h
      · split at h
        next fp0 hfp0 =>
          simp only [Except.ok.injEq] at h
          subst h
          exact hemb fp0 hfp0
        next => exact Except.noConfusion h
      · exact Except.noConfusion h

/-- The segment template of the C1 scenario: a $Number$ media attribute with
an EMPTY SegmentTimeline. -/
def stC1 : SegmentTemplateType :=
  { Media := "seg_$Number$.m4s", SegmentTimeline := some { S := [] } }

/-- The representation of the C1 scenario. -/
def repC1 : RepresentationType :=
  { MimeType := "video/mp4", Codecs := "avc1", Width := 100, Height := 50,
    Bandwidth := 1000, SegmentTemplate := some stC1 }

/-- The adaptation set of the C1 scenario. -/
def asetC1 : AdaptationSetType :=
  { ContentType := "video", Representations := [repC1] }

/-- The single period of the C1 scenario. -/
def periodC1 : PeriodType := { Duration := some 10, AdaptationSets := [asetC1] }

/-- The static MPD of the C1 scenario. -/
def mpdC1 : MPD := { MPDType := "static", BaseURL := [], Periods := [periodC1] }

/-- The manifest reference of the C1 scenario. -/
def refC1 : Reference :=
  { Format := "dash", URL := "https://h.example/man.mpd", Servers := [] }

/-- The MPD oracle of the C1 scenario. -/
def fetchC1 : String → Except String MPD := fun _ => .ok mpdC1

/-- The explicit addressing info extracted in the C1 scenario: empty URL and
duration lists, default timescale 1. -/
def infoExtC1 : ExplicitAddressingInfo :=
  { TemplateURL := resolveReference "https://h.example/man.mpd" "seg_$Number$.m4s",
    URLs := [], Servers := [], SegmentDurations := [], Timescale := 1 }

/-- The variant extracted in the C1 scenario. -/
def vExtC1 : Variant :=
  { ID := computeID "video/mp4" "avc1" 100 50 1000, MimeType := "video/mp4",
    Codecs := "avc1", Width := 100, Height := 50, Bandwidth := 1000,
    AddressingMode := "explicit", IndexedAddressingInfo := none,
    ExplicitAddressingInfo := some infoExtC1, Fingerprint := none }

/-- The fingerprint computed in the C1 scenario: empty arrays. -/
def fpC1 : Fingerprint := { SegmentSizes := [], SegmentDurations := [], Timescale := 1 }

/-- C1 counterexample: an MPD whose SegmentTimeline is empty extracts
successfully and fingerprints successfully, attaching a fingerprint whose
arrays have length 0, refuting both the claimed length lower bound of 1 and
(with the default timescale 1 replaced by an explicit 0 the same way) the
claimed invariant shape. -/
theorem C1_counterexample :
    ExtractVariants (fun _ => 0) fetchC1 fetchC1 (fun _ => .error "m")
        (fun _ => .error "m") refC1 = .ok [vExtC1]
    ∧ FingerprintVariant (fun _ _ => .error "s") (fun _ _ _ => .ok 1) (fun _ _ => false)
        (fun _ _ => 0) (fun _ _ => 0) vExtC1 = .ok fpC1
    ∧ (attachFingerprint vExtC1 fpC1).Fingerprint = some fpC1
    ∧ fpC1.SegmentSizes.length = 0
    ∧ fpC1.SegmentDurations.length = 0 :=
  ⟨rfl, rfl, rfl, rfl, rfl⟩

/-- C1 witness: the amended theorem applied to the concrete extracted variant
and fingerprint of the C1 scenario. -/
theorem C1_witness :
    (attachFingerprint vExtC1 fpC1).Fingerprint = some fpC1
    ∧ fpC1.SegmentSizes.length = fpC1.SegmentDurations.length :=
  C1_attached_fingerprint_invariants (fun _ _ => .error "s") (fun _ _ _ => .ok 1)
    (fun _ _ => false) (fun _ _ => 0) (fun _ _ => 0) vExtC1 fpC1
    (fun info hi => by
      have hi2 : some infoExtC1 = some info := hi
      injection hi2 with hi3
      subst hi3
      rfl)
    (fun fp0 hf => by
      have hf2 : (none : Option Fingerprint) = some fp0 := hf
      exact Option.noConfusion hf2)
    rfl

end Karl
